import Mathlib

/-!
Shallow embedding of the SolCalc core engine (tokenizer text handling, number
literal parsing, decimal propagation, rounding, evaluator, comparator) and
proofs about it.

Arithmetic conventions: TypeScript bigints are modelled as `Int`.  JavaScript
bigint `/` truncates toward zero and `%` takes the sign of the dividend, which
is exactly `Int.tdiv` / `Int.tmod`.  JavaScript `number` decimal counts are
modelled as `Int` (they can be negative for computed scales).
-/

namespace SolCalc

/-- Rounding mode (`'floor' | 'ceil'` in the source). -/
inductive RoundingMode
  | floor
  | ceil
deriving DecidableEq, Repr

/-- A user-supplied variable binding.  The source declares `decimals : number`
but the evaluator checks for `null`/`undefined` decimals, so we model the
field as optional. -/
structure Variable where
  value : Int
  decimals : Option Int
deriving DecidableEq, Repr

/-- Binary arithmetic operator. -/
inductive BinOp
  | add
  | sub
  | mul
  | div
deriving DecidableEq, Repr

/-- Comparison operator. -/
inductive CompOp
  | eq
  | ne
  | lt
  | le
  | gt
  | ge
deriving DecidableEq, Repr

/-- AST nodes (types.ts `ASTNode`).  `typeBoundLiteral` keeps the normalized
type name (e.g. `"uint256"`) and whether it is the max bound. -/
inductive ASTNode
  | numberLiteral (value : Int) (decimals : Int)
  | typeBoundLiteral (value : Int) (solidityType : String) (boundIsMax : Bool)
  | identifier (name : String)
  | binaryOp (operator : BinOp) (left right : ASTNode)
  | exponentiation (base exponent : ASTNode)
  | comparison (operator : CompOp) (left right : ASTNode)
deriving DecidableEq, Repr

/-- Structured reasons of `InvalidExponentiationError` (the source carries
interpolated message strings; we keep the distinguishing tag). -/
inductive ExpoErrReason
  | baseNotLiteral
  | baseNot10
  | exponentNotDimensionless
  | exponentTooLarge
  | exponentNegative
deriving DecidableEq, Repr

/-- Evaluation-phase errors (the typed error classes of types.ts). -/
inductive EvalError
  | divisionByZero
  | undefinedVariable (name : String)
  | missingDecimals (name : String)
  | negativeVariableDecimals (name : String)
  | decimalMismatch (leftDecimals rightDecimals : Int) (operator : BinOp)
  | invalidExponentiation (reason : ExpoErrReason)
  | comparisonDecimalMismatch (leftDecimals rightDecimals : Int)
  | unknownNodeType
  | unknownOperator
deriving DecidableEq, Repr

/-- An evaluated value (types.ts `EvaluatedValue`): magnitude, scale, and the
optional remainder tracking of the most recent division. -/
structure EvaluatedValue where
  value : Int
  decimals : Int
  divisionRemainder : Option Int := none
  divisionDivisor : Option Int := none
  divisionResultDecimals : Option Int := none
deriving DecidableEq, Repr

/-! ### Decimal propagation (decimals.ts) -/

/-- Multiplication: decimals add. -/
def multiplyDecimals (leftDecimals rightDecimals : Int) : Int :=
  leftDecimals + rightDecimals

/-- Division: decimals subtract (may go negative). -/
def divideDecimals (leftDecimals rightDecimals : Int) : Int :=
  leftDecimals - rightDecimals

/-- Addition requires exactly matching decimals, else `DecimalMismatchError`. -/
def addDecimals (leftDecimals rightDecimals : Int) : Except EvalError Int :=
  if leftDecimals = rightDecimals then .ok leftDecimals
  else .error (.decimalMismatch leftDecimals rightDecimals .add)

/-- Subtraction requires exactly matching decimals, else `DecimalMismatchError`. -/
def subtractDecimals (leftDecimals rightDecimals : Int) : Except EvalError Int :=
  if leftDecimals = rightDecimals then .ok leftDecimals
  else .error (.decimalMismatch leftDecimals rightDecimals .sub)

/-! ### Decimal string rendering (decimals.ts `formatWithDecimals`) -/

/-- The character for a single decimal digit value. -/
def digitChar (d : Nat) : Char := Char.ofNat (48 + d)

/-- Is `c` an ASCII digit `0`-`9`? -/
def isDigitCharB (c : Char) : Bool := decide (48 ≤ c.toNat) && decide (c.toNat ≤ 57)

/-- Decimal digits of a natural number, most significant first (the rendering
used by JavaScript's bigint `toString`).  Structural recursion on a fuel
argument (`n + 1` steps always suffice since `n` shrinks by a factor of 10
each step). -/
def natDigitsAux : Nat → Nat → List Char → List Char
  | 0, _, acc => acc
  | fuel + 1, n, acc =>
    let acc' := digitChar (n % 10) :: acc
    if n < 10 then acc' else natDigitsAux fuel (n / 10) acc'

/-- Decimal digit characters of `n`. -/
def natDigits (n : Nat) : List Char := natDigitsAux (n + 1) n []

/-- Characters of the JavaScript bigint `toString` rendering of `v`. -/
def intChars (v : Int) : List Char :=
  if v < 0 then '-' :: natDigits v.natAbs else natDigits v.natAbs

/-- JavaScript bigint `toString`. -/
def bigintToString (v : Int) : String := ⟨intChars v⟩

/-- Character-level body of `formatWithDecimals`: negative decimals multiply
the magnitude, zero renders plainly, positive decimals insert a decimal point
`decimals` digits from the right after left-padding with zeros. -/
def formatChars (value : Int) (decimals : Int) : List Char :=
  if decimals < 0 then
    intChars (value * 10 ^ (-decimals).toNat)
  else if decimals = 0 then
    intChars value
  else
    let d := decimals.toNat
    let isNeg := value < 0
    let valueStr := natDigits value.natAbs
    let padded := List.replicate (d + 1 - valueStr.length) '0' ++ valueStr
    let ipRaw := padded.take (padded.length - d)
    let integerPart := if ipRaw = [] then ['0'] else ipRaw
    let decimalPart := padded.drop (padded.length - d)
    let core := integerPart ++ '.' :: decimalPart
    if isNeg then '-' :: core else core

/-- decimals.ts `formatWithDecimals`. -/
def formatWithDecimals (value decimals : Int) : String := ⟨formatChars value decimals⟩

/-- Drop all trailing `'0'` characters. -/
def dropTrailingZeros (l : List Char) : List Char :=
  (l.reverse.dropWhile (fun c => c = '0')).reverse

/-- decimals.ts `trimTrailingZeros`: on strings containing a decimal point,
strip trailing zeros and then a dangling trailing point. -/
def trimTrailingZeros (s : String) : String :=
  if s.data.contains '.' then
    let t := dropTrailingZeros s.data
    if t.getLast? = some '.' then ⟨t.dropLast⟩ else ⟨t⟩
  else s

/-! ### Rounding engine (rounding.ts) -/

/-- decimals.ts `scaleToDecimals`: exact multiply when scaling up, truncating
divide when scaling down. -/
def scaleToDecimals (value : Int) (fromDecimals toDecimals : Int) : Int :=
  let decimalDiff := toDecimals - fromDecimals
  if decimalDiff = 0 then value
  else if 0 < decimalDiff then value * 10 ^ decimalDiff.toNat
  else Int.tdiv value (10 ^ (-decimalDiff).toNat)

/-- rounding.ts `floorDivide`: truncating division adjusted to mathematical
floor when the remainder is non-zero and operand signs differ. -/
def floorDivide (dividend divisor : Int) : Int :=
  let quotient := Int.tdiv dividend divisor
  let remainder := Int.tmod dividend divisor
  if remainder = 0 then quotient
  else if (decide (dividend < 0) ≠ decide (divisor < 0)) then quotient - 1
  else quotient

/-- rounding.ts `ceilDivide`: truncating division adjusted to mathematical
ceiling when the remainder is non-zero and operand signs agree. -/
def ceilDivide (dividend divisor : Int) : Int :=
  let quotient := Int.tdiv dividend divisor
  let remainder := Int.tmod dividend divisor
  if remainder = 0 then quotient
  else if (decide (dividend < 0) = decide (divisor < 0)) then quotient + 1
  else quotient

/-- rounding.ts `divideWithRounding` (total model: the division-by-zero throw
is handled by callers before reaching this in the evaluator). -/
def divideWithRounding (dividend divisor : Int) (mode : RoundingMode) : Int :=
  match mode with
  | .floor => floorDivide dividend divisor
  | .ceil => ceilDivide dividend divisor

/-- rounding.ts `applyRounding`: scaling up is exact, scaling down divides by
a power of ten with the chosen rounding. -/
def applyRounding (value : Int) (fromDecimals toDecimals : Int) (mode : RoundingMode) : Int :=
  let decimalDiff := toDecimals - fromDecimals
  if 0 ≤ decimalDiff then scaleToDecimals value fromDecimals toDecimals
  else divideWithRounding value (10 ^ (-decimalDiff).toNat) mode

/-! ### Overflow detection (evaluate.ts `detectOverflow`, `calculateWrappedValue`) -/

/-- Overflow warning kind. -/
inductive OverflowKind
  | overflow
  | underflow
deriving DecidableEq, Repr

/-- types.ts `OverflowWarning`. -/
structure OverflowWarning where
  solidityType : String
  kind : OverflowKind
  wrappedValue : Int
  wrappedHuman : String
deriving DecidableEq, Repr

/-- Digit-string to natural number (base 10, most significant first). -/
def digitsToNat (l : List Char) : Nat :=
  l.foldl (fun a c => 10 * a + (c.toNat - 48)) 0

/-- The regex `^(u?int)(\d+)$` of `detectOverflow`: returns
`(isSigned, bits)` when the type name matches. -/
def parseUintIntType (s : String) : Option (Bool × Nat) :=
  let cs := s.data
  if cs.take 4 = ['u', 'i', 'n', 't'] then
    let ds := cs.drop 4
    if ds ≠ [] ∧ ds.all isDigitCharB then some (false, digitsToNat ds) else none
  else if cs.take 3 = ['i', 'n', 't'] then
    let ds := cs.drop 3
    if ds ≠ [] ∧ ds.all isDigitCharB then some (true, digitsToNat ds) else none
  else none

/-- evaluate.ts `calculateWrappedValue`: JavaScript `%` is `Int.tmod`; a
negative representative is shifted into `[0, 2^bits)`; signed types then map
the upper half down by `2^bits`. -/
def calculateWrappedValue (value : Int) (bits : Nat) (isSigned : Bool) : Int :=
  let range : Int := 2 ^ bits
  if !isSigned then
    let wrapped := Int.tmod value range
    if wrapped < 0 then wrapped + range else wrapped
  else
    let w0 := Int.tmod value range
    let wrappedUnsigned := if w0 < 0 then w0 + range else w0
    let half : Int := 2 ^ (bits - 1)
    if half ≤ wrappedUnsigned then wrappedUnsigned - range else wrappedUnsigned

/-- The `[min, max]` range of a bounded type. -/
def typeMin (isSigned : Bool) (bits : Nat) : Int :=
  if isSigned then -(2 ^ (bits - 1)) else 0

/-- The `[min, max]` range of a bounded type. -/
def typeMax (isSigned : Bool) (bits : Nat) : Int :=
  if isSigned then 2 ^ (bits - 1) - 1 else 2 ^ bits - 1

/-- evaluate.ts `detectOverflow`: walk the referenced type names in insertion
order, skip names the regex rejects, and report the first range violation. -/
def detectOverflow (value : Int) (typeBounds : List String) : Option OverflowWarning :=
  match typeBounds with
  | [] => none
  | t :: rest =>
    match parseUintIntType t with
    | none => detectOverflow value rest
    | some (isSigned, bits) =>
      if typeMax isSigned bits < value then
        let wrappedValue := calculateWrappedValue value bits isSigned
        some { solidityType := t, kind := .overflow, wrappedValue,
               wrappedHuman := bigintToString wrappedValue }
      else if value < typeMin isSigned bits then
        let wrappedValue := calculateWrappedValue value bits isSigned
        some { solidityType := t, kind := .underflow, wrappedValue,
               wrappedHuman := bigintToString wrappedValue }
      else detectOverflow value rest

/-! ### Division loss (evaluate.ts `calculateDivisionLoss`) -/

/-- evaluate.ts `calculateDivisionLoss`: 50 decimal digits of precision; the
floor numerator is the remainder, the ceil numerator is `-(divisor -
remainder)`. -/
def calculateDivisionLoss (remainder divisor : Int) (resultDecimals : Int)
    (roundingMode : RoundingMode) : String :=
  if remainder = 0 then "0"
  else
    let lossNumerator := match roundingMode with
      | .floor => remainder
      | .ceil => -(divisor - remainder)
    let isNegative := lossNumerator < 0
    let absNumerator := if isNegative then -lossNumerator else lossNumerator
    let precision : Int := 50
    let scaledNumerator := absNumerator * 10 ^ (50 : Nat)
    let fractionWithPrecision := Int.tdiv scaledNumerator divisor
    let formatted := formatWithDecimals fractionWithPrecision (precision + resultDecimals)
    if isNegative then ⟨'-' :: formatted.data⟩ else formatted

/-! ### Evaluator phase 1 (evaluate.ts) -/

/-- Whether an AST node is syntactically a `NUMBER_LITERAL` node. -/
def isNumberLiteral : ASTNode → Bool
  | .numberLiteral _ _ => true
  | _ => false

/-- JavaScript's `Number.isSafeInteger(Number(v))` for a bigint `v`: true
exactly when `|v| ≤ 2^53 - 1` (every such integer converts exactly; any
larger magnitude converts to a double of magnitude at least `2^53`, which is
not a safe integer). -/
def isJsSafeInteger (v : Int) : Bool := decide (v.natAbs ≤ 2 ^ 53 - 1)

/-- The `+`/`-` body of `evaluateBinaryOp` with its scalar-literal coercion:
a `NUMBER_LITERAL` operand whose evaluated decimals are 0 is lifted to the
other operand's decimals when those are positive. -/
def evalAddSub (op : BinOp) (leftLit rightLit : Bool) (left right : EvaluatedValue) :
    Except EvalError EvaluatedValue :=
  let c1 := leftLit && decide (left.decimals = 0) && decide (0 < right.decimals)
  let c2 := rightLit && decide (right.decimals = 0) && decide (0 < left.decimals)
  let finalLeft := if c1 then { left with decimals := right.decimals } else left
  let finalRight := if !c1 && c2 then { right with decimals := left.decimals } else right
  match op with
  | .add =>
    match addDecimals finalLeft.decimals finalRight.decimals with
    | .error e => .error e
    | .ok d => .ok { value := finalLeft.value + finalRight.value, decimals := d }
  | .sub =>
    match subtractDecimals finalLeft.decimals finalRight.decimals with
    | .error e => .error e
    | .ok d => .ok { value := finalLeft.value - finalRight.value, decimals := d }
  | _ => .error .unknownOperator

/-- The `/` body of `evaluateBinaryOp`: JavaScript bigint division is
`Int.tdiv`; ceil mode uses `(a + b - 1) / b` only when a remainder exists;
non-zero remainders are retained for loss reporting. -/
def evalDiv (roundingMode : RoundingMode) (left right : EvaluatedValue) :
    Except EvalError EvaluatedValue :=
  if right.value = 0 then .error .divisionByZero
  else
    let remainder := Int.tmod left.value right.value
    let quotient := match roundingMode with
      | .floor => Int.tdiv left.value right.value
      | .ceil =>
        if remainder = 0 then Int.tdiv left.value right.value
        else Int.tdiv (left.value + right.value - 1) right.value
    let resultDecimals := divideDecimals left.decimals right.decimals
    .ok { value := quotient, decimals := resultDecimals,
          divisionRemainder := if remainder ≠ 0 then some remainder else none,
          divisionDivisor := if remainder ≠ 0 then some right.value else none,
          divisionResultDecimals := if remainder ≠ 0 then some resultDecimals else none }

/-- Look up a variable by name (the source's `Map.get`). -/
def lookupVar (vars : List (String × Variable)) (name : String) : Option Variable :=
  match vars with
  | [] => none
  | (k, v) :: rest => if k = name then some v else lookupVar rest name

/-- Add a type name to the per-call tracking set (JavaScript `Set.add`
preserves first-insertion order and deduplicates). -/
def addTypeBound (typeBounds : List String) (t : String) : List String :=
  if typeBounds.contains t then typeBounds else typeBounds ++ [t]

/-- evaluate.ts `evaluateNode`: recursive evaluation returning the value plus
the threaded tracking set of referenced bounded-integer type names. -/
def evaluateNode (node : ASTNode) (vars : List (String × Variable))
    (roundingMode : RoundingMode) (typeBounds : List String) :
    Except EvalError (EvaluatedValue × List String) :=
  match node with
  | .numberLiteral v d => .ok ({ value := v, decimals := d }, typeBounds)
  | .typeBoundLiteral v st _ => .ok ({ value := v, decimals := 0 }, addTypeBound typeBounds st)
  | .identifier n =>
    match lookupVar vars n with
    | none => .error (.undefinedVariable n)
    | some variable0 =>
      match variable0.decimals with
      | none => .error (.missingDecimals n)
      | some d =>
        if d < 0 then .error (.negativeVariableDecimals n)
        else .ok ({ value := variable0.value, decimals := d }, typeBounds)
  | .binaryOp op l r =>
    match evaluateNode l vars roundingMode typeBounds with
    | .error e => .error e
    | .ok (left, tb1) =>
      match evaluateNode r vars roundingMode tb1 with
      | .error e => .error e
      | .ok (right, tb2) =>
        match op with
        | .add => (evalAddSub .add (isNumberLiteral l) (isNumberLiteral r) left right).map (·, tb2)
        | .sub => (evalAddSub .sub (isNumberLiteral l) (isNumberLiteral r) left right).map (·, tb2)
        | .mul => .ok ({ value := left.value * right.value,
                         decimals := multiplyDecimals left.decimals right.decimals }, tb2)
        | .div => (evalDiv roundingMode left right).map (·, tb2)
  | .exponentiation b e =>
    match b with
    | .numberLiteral bv _ =>
      if bv = 10 then
        match evaluateNode e vars roundingMode typeBounds with
        | .error err => .error err
        | .ok (exponent, tb1) =>
          if exponent.decimals ≠ 0 then
            .error (.invalidExponentiation .exponentNotDimensionless)
          else if ¬ isJsSafeInteger exponent.value then
            .error (.invalidExponentiation .exponentTooLarge)
          else if exponent.value < 0 then
            .error (.invalidExponentiation .exponentNegative)
          else
            .ok ({ value := 10 ^ exponent.value.toNat, decimals := exponent.value }, tb1)
      else .error (.invalidExponentiation .baseNot10)
    | _ => .error (.invalidExponentiation .baseNotLiteral)
  | .comparison _ _ _ => .error .unknownNodeType

/-- types.ts `EvaluationResult`. -/
structure EvaluationResult where
  raw : Int
  decimals : Int
  human : String
  solidity : Int
  roundingLoss : String
  warning : Option OverflowWarning
deriving DecidableEq, Repr

/-- evaluate.ts `evaluate`: phase-1 evaluation, human rendering, loss string
from the outermost retained division, and post-hoc overflow detection only
when the final scale is exactly 0. -/
def evaluate (ast : ASTNode) (vars : List (String × Variable))
    (roundingMode : RoundingMode := .floor) : Except EvalError EvaluationResult :=
  match evaluateNode ast vars roundingMode [] with
  | .error e => .error e
  | .ok (result, typeBounds) =>
    let human := formatWithDecimals result.value result.decimals
    let solidity := result.value
    let roundingLoss :=
      match result.divisionRemainder, result.divisionDivisor, result.divisionResultDecimals with
      | some r, some d, some dec => trimTrailingZeros (calculateDivisionLoss r d dec roundingMode)
      | _, _, _ => "0"
    let warning := if result.decimals = 0 then detectOverflow result.value typeBounds else none
    .ok { raw := result.value, decimals := result.decimals, human, solidity, roundingLoss, warning }

/-! ### Comparator phase 2 (evaluate.ts `evaluateComparison`) -/

/-- types.ts `ComparisonResult`. -/
structure ComparisonResult where
  result : Bool
  operator : CompOp
  leftHuman : String
  rightHuman : String
  decimals : Int
  warning : Option OverflowWarning
deriving DecidableEq, Repr

/-- The boolean test on raw magnitudes. -/
def compareValues (op : CompOp) (a b : Int) : Bool :=
  match op with
  | .eq => decide (a = b)
  | .ne => decide (a ≠ b)
  | .lt => decide (a < b)
  | .le => decide (a ≤ b)
  | .gt => decide (b < a)
  | .ge => decide (b ≤ a)

/-- evaluate.ts `evaluateComparison`: phase 1 on each side, a hard
`ComparisonDecimalMismatchError` when the two evaluated scales differ, then
the boolean test on the raw values. -/
def evaluateComparison (op : CompOp) (left right : ASTNode)
    (vars : List (String × Variable)) (roundingMode : RoundingMode := .floor) :
    Except EvalError ComparisonResult :=
  match evaluate left vars roundingMode with
  | .error e => .error e
  | .ok leftResult =>
    match evaluate right vars roundingMode with
    | .error e => .error e
    | .ok rightResult =>
      if leftResult.decimals ≠ rightResult.decimals then
        .error (.comparisonDecimalMismatch leftResult.decimals rightResult.decimals)
      else
        .ok { result := compareValues op leftResult.raw rightResult.raw,
              operator := op,
              leftHuman := leftResult.human,
              rightHuman := rightResult.human,
              decimals := leftResult.decimals,
              warning := leftResult.warning.or rightResult.warning }

/-! ### Number-literal parsing (parse.ts `parseNumberLiteral`,
`parseScientificNotation`, `parseDecimalLiteral`) -/

/-- ASCII lower-casing of a character (the effect of JavaScript
`toLowerCase` on the tokenizer's ASCII token texts). -/
def asciiToLower (c : Char) : Char :=
  if 65 ≤ c.toNat ∧ c.toNat ≤ 90 then Char.ofNat (c.toNat + 32) else c

/-- JavaScript `String.prototype.split` restricted to a single-character
separator: split into the (possibly empty) chunks between separators. -/
def splitOnChar (sep : Char) : List Char → List (List Char)
  | [] => [[]]
  | c :: rest =>
    if c = sep then [] :: splitOnChar sep rest
    else
      match splitOnChar sep rest with
      | [] => [[c]]
      | h :: t => (c :: h) :: t

/-- Longest digit run at the front of a string. -/
def leadingDigits : List Char → List Char
  | [] => []
  | c :: rest => if isDigitCharB c then c :: leadingDigits rest else []

/-- JavaScript `parseInt(s, 10)` on sign-plus-digits token texts: `none`
models `NaN`. -/
def jsParseInt (l : List Char) : Option Int :=
  match l with
  | [] => none
  | c :: rest =>
    if c = '-' then
      match leadingDigits rest with
      | [] => none
      | ds => some (-(digitsToNat ds : Int))
    else if c = '+' then
      match leadingDigits rest with
      | [] => none
      | ds => some (digitsToNat ds : Int)
    else
      match leadingDigits (c :: rest) with
      | [] => none
      | ds => some (digitsToNat ds : Int)

/-- JavaScript `BigInt(string)`: the empty string is `0`, an optional sign
must be followed by digits only; `none` models the thrown `SyntaxError`. -/
def jsBigInt (l : List Char) : Option Int :=
  match l with
  | [] => some 0
  | c :: rest =>
    if c = '-' then
      if (!rest.isEmpty) && rest.all isDigitCharB then some (-(digitsToNat rest : Int)) else none
    else if c = '+' then
      if (!rest.isEmpty) && rest.all isDigitCharB then some (digitsToNat rest : Int) else none
    else
      if (c :: rest).all isDigitCharB then some (digitsToNat (c :: rest) : Int) else none

/-- A parsed number literal: magnitude and scale. -/
structure NumberLit where
  value : Int
  decimals : Int
deriving DecidableEq, Repr

/-- Parse-phase errors.  The source's `parseNumberLiteral` wraps its body in
a catch that rethrows every failure as `ParseError "Invalid number"`, so all
of its failures collapse to `invalidNumber`. -/
inductive ParseErr
  | invalidNumber
  | decimalNotAbsorbed
  | decimalMultiplierNotNumber
  | invalidDecimalLiteral
  | insufficientScale
deriving DecidableEq, Repr

/-- parse.ts `parseScientificNotation` on the two lowered chunks around the
`'e'`: `mantissa * 10^exp` with scale 0; negative exponents, missing chunks
and malformed numbers are errors (all collapsed to `invalidNumber` by the
enclosing catch). -/
def parseScientificNotation (mantissaStr exponentStr : List Char) : Except ParseErr Int :=
  if mantissaStr.isEmpty || exponentStr.isEmpty then .error .invalidNumber
  else
    match jsBigInt mantissaStr, jsParseInt exponentStr with
    | some mantissa, some exp =>
      if exp < 0 then .error .invalidNumber
      else .ok (mantissa * 10 ^ exp.toNat)
    | _, _ => .error .invalidNumber

/-- The scientific-notation arm of `parseNumberLiteral`: a lowered mantissa
text of exactly `"1"` yields the scale constant `{10^exp, exp}`; any other
mantissa defers to `parseScientificNotation` at scale 0. -/
def parseSciLiteral (parts : List (List Char)) : Except ParseErr NumberLit :=
  let mantissaStr := parts.headD []
  let exponentStr := (parts.drop 1).headD []
  if mantissaStr = ['1'] then
    match jsParseInt exponentStr with
    | none => .error .invalidNumber
    | some exp =>
      if exp < 0 then .error .invalidNumber
      else .ok { value := 10 ^ exp.toNat, decimals := exp }
  else
    match parseScientificNotation mantissaStr exponentStr with
    | .error e => .error e
    | .ok v => .ok { value := v, decimals := 0 }

/-- parse.ts `parseNumberLiteral` over the token text: a scientific-notation
literal whose lowered mantissa text is exactly `"1"` becomes a scale constant
`{10^exp, exp}`; any other scientific-notation literal computes
`mantissa * 10^exp` with scale 0; a plain digit string is a scale-0 integer;
negative exponents are rejected. -/
def parseNumberLiteralChars (cs : List Char) : Except ParseErr NumberLit :=
  let lowered := cs.map asciiToLower
  if lowered.contains 'e' then
    parseSciLiteral (splitOnChar 'e' lowered)
  else
    match jsBigInt cs with
    | some v => .ok { value := v, decimals := 0 }
    | none => .error .invalidNumber

/-- parse.ts `parseNumberLiteral` on a token text. -/
def parseNumberLiteral (s : String) : Except ParseErr NumberLit :=
  parseNumberLiteralChars s.data

/-- Token kinds (types.ts `TokenType`). -/
inductive TokenType
  | number
  | decimalLiteral
  | identifier
  | typeBound
  | plus
  | minus
  | multiply
  | divide
  | power
  | lparen
  | rparen
  | eq
  | ne
  | lt
  | le
  | gt
  | ge
  | eof
deriving DecidableEq, Repr

/-- A token (source offsets are omitted: they feed only error messages). -/
structure Token where
  type : TokenType
  value : String
deriving DecidableEq, Repr

/-- The parser's end-of-input fallback token. -/
def eofToken : Token := { type := .eof, value := "" }

/-- parse.ts `parseDecimalLiteral`: a decimal-point literal must be followed
by `*` and a `NUMBER` token; the decimal text is split at the point, the
digits are concatenated, and the absorbed literal is
`{digits * multiplier / 10^places, multiplier's decimals}` (truncating
division) provided the multiplier's magnitude is at least `10^places`.
Returns the rewritten literal and the unconsumed tokens. -/
def parseDecimalLiteral (decValue : String) (rest : List Token) :
    Except ParseErr (NumberLit × List Token) :=
  let cur := rest.headD eofToken
  if cur.type ≠ .multiply then .error .decimalNotAbsorbed
  else
    let multiplierToken := (rest.drop 1).headD eofToken
    if multiplierToken.type ≠ .number then .error .decimalMultiplierNotNumber
    else
      let parts := splitOnChar '.' decValue.data
      let integerPart := parts.headD []
      let fractionalPart := (parts.drop 1).headD []
      if fractionalPart.isEmpty then .error .invalidDecimalLiteral
      else
        match jsBigInt (integerPart ++ fractionalPart) with
        | none => .error .invalidDecimalLiteral
        | some numerator =>
          match parseNumberLiteral multiplierToken.value with
          | .error e => .error e
          | .ok multiplierValue =>
            let decimalPlaces := fractionalPart.length
            let requiredMultiplier : Int := 10 ^ decimalPlaces
            if multiplierValue.value < requiredMultiplier then .error .insufficientScale
            else
              .ok ({ value := Int.tdiv (numerator * multiplierValue.value) requiredMultiplier,
                     decimals := multiplierValue.decimals }, rest.drop 2)

/-! ## Theorems -/

/-- When the right operand is a scale-0 literal and the left scale is
positive, `+`/`-` lift the literal to the left scale and succeed. -/
theorem evalAddSub_lift_right (op : BinOp) (lLit : Bool) (left right : EvaluatedValue)
    (h0 : right.decimals = 0) (hpos : 0 < left.decimals) :
    evalAddSub op lLit true left right =
      match op with
      | .add => .ok { value := left.value + right.value, decimals := left.decimals }
      | .sub => .ok { value := left.value - right.value, decimals := left.decimals }
      | _ => .error .unknownOperator := by
  have hne : ¬ left.decimals = 0 := by omega
  cases op <;> simp [evalAddSub, h0, hpos, hne, addDecimals, subtractDecimals]

/-- When the left operand is a scale-0 literal and the right scale is
positive, `+`/`-` lift the literal to the right scale and succeed. -/
theorem evalAddSub_lift_left (op : BinOp) (rLit : Bool) (left right : EvaluatedValue)
    (h0 : left.decimals = 0) (hpos : 0 < right.decimals) :
    evalAddSub op true rLit left right =
      match op with
      | .add => .ok { value := left.value + right.value, decimals := right.decimals }
      | .sub => .ok { value := left.value - right.value, decimals := right.decimals }
      | _ => .error .unknownOperator := by
  cases op <;> simp [evalAddSub, h0, hpos, addDecimals, subtractDecimals]

/-- Without an applicable lift, mismatched scales make `+`/`-` fail with a
`DecimalMismatchError` carrying both scales. -/
theorem evalAddSub_mismatch (op : BinOp) (hop : op = .add ∨ op = .sub)
    (lLit rLit : Bool) (left right : EvaluatedValue)
    (hne : left.decimals ≠ right.decimals)
    (hn1 : ¬ (lLit = true ∧ left.decimals = 0 ∧ 0 < right.decimals))
    (hn2 : ¬ (rLit = true ∧ right.decimals = 0 ∧ 0 < left.decimals)) :
    evalAddSub op lLit rLit left right
      = .error (.decimalMismatch left.decimals right.decimals op) := by
  have hb1 : (lLit && decide (left.decimals = 0) && decide (0 < right.decimals)) = false := by
    rw [Bool.eq_false_iff]
    intro hC
    exact hn1 (by simpa [Bool.and_eq_true, decide_eq_true_eq, and_assoc] using hC)
  have hb2 : (rLit && decide (right.decimals = 0) && decide (0 < left.decimals)) = false := by
    rw [Bool.eq_false_iff]
    intro hC
    exact hn2 (by simpa [Bool.and_eq_true, decide_eq_true_eq, and_assoc] using hC)
  rcases hop with h | h <;> subst h <;>
    simp [evalAddSub, hb1, hb2, hne, addDecimals, subtractDecimals]

/-- C3: for operands evaluating to `va`, `vb`, the operations `A + B` and
`A - B` fail with `DecimalMismatchError` carrying both scales whenever the
scales differ and neither operand is an auto-liftable scale-0 literal node
with a positive-scale sibling; when one operand is such a literal, the
operation succeeds and the result carries the sibling operand's scale. -/
theorem evaluateNode_addsub_scale_rule (op : BinOp) (hop : op = .add ∨ op = .sub)
    (a b : ASTNode) (vars : List (String × Variable)) (rm : RoundingMode)
    (tb tb1 tb2 : List String) (va vb : EvaluatedValue)
    (ha : evaluateNode a vars rm tb = .ok (va, tb1))
    (hb : evaluateNode b vars rm tb1 = .ok (vb, tb2)) :
    (va.decimals ≠ vb.decimals →
      ¬ (isNumberLiteral a = true ∧ va.decimals = 0 ∧ 0 < vb.decimals) →
      ¬ (isNumberLiteral b = true ∧ vb.decimals = 0 ∧ 0 < va.decimals) →
      evaluateNode (.binaryOp op a b) vars rm tb
        = .error (.decimalMismatch va.decimals vb.decimals op))
    ∧ (isNumberLiteral b = true → vb.decimals = 0 → 0 < va.decimals →
      ∃ r : EvaluatedValue,
        evaluateNode (.binaryOp op a b) vars rm tb = .ok (r, tb2)
        ∧ r.decimals = va.decimals)
    ∧ (isNumberLiteral a = true → va.decimals = 0 → 0 < vb.decimals →
      ∃ r : EvaluatedValue,
        evaluateNode (.binaryOp op a b) vars rm tb = .ok (r, tb2)
        ∧ r.decimals = vb.decimals) := by
  rcases hop with rfl | rfl
  · refine ⟨?_, ?_, ?_⟩
    · intro hne hn1 hn2
      have hm := evalAddSub_mismatch .add (Or.inl rfl)
        (isNumberLiteral a) (isNumberLiteral b) va vb hne hn1 hn2
      simp [evaluateNode, ha, hb, hm, Except.map]
    · intro hbl h0 hpos
      have hm := evalAddSub_lift_right .add (isNumberLiteral a) va vb h0 hpos
      rw [← hbl] at hm
      exact ⟨{ value := va.value + vb.value, decimals := va.decimals },
        by simp [evaluateNode, ha, hb, hm, Except.map], rfl⟩
    · intro hal h0 hpos
      have hm := evalAddSub_lift_left .add (isNumberLiteral b) va vb h0 hpos
      rw [← hal] at hm
      exact ⟨{ value := va.value + vb.value, decimals := vb.decimals },
        by simp [evaluateNode, ha, hb, hm, Except.map], rfl⟩
  · refine ⟨?_, ?_, ?_⟩
    · intro hne hn1 hn2
      have hm := evalAddSub_mismatch .sub (Or.inr rfl)
        (isNumberLiteral a) (isNumberLiteral b) va vb hne hn1 hn2
      simp [evaluateNode, ha, hb, hm, Except.map]
    · intro hbl h0 hpos
      have hm := evalAddSub_lift_right .sub (isNumberLiteral a) va vb h0 hpos
      rw [← hbl] at hm
      exact ⟨{ value := va.value - vb.value, decimals := va.decimals },
        by simp [evaluateNode, ha, hb, hm, Except.map], rfl⟩
    · intro hal h0 hpos
      have hm := evalAddSub_lift_left .sub (isNumberLiteral b) va vb h0 hpos
      rw [← hal] at hm
      exact ⟨{ value := va.value - vb.value, decimals := vb.decimals },
        by simp [evaluateNode, ha, hb, hm, Except.map], rfl⟩

/-- Closed instance of the C3 theorem: `x@18 + y@6` (two variables) has no
auto-liftable operand and fails; `x@18 + 7` (bare literal) succeeds at
scale 18. -/
theorem evaluateNode_addsub_scale_rule_witness :
    (((18 : Int) ≠ 6 →
      ¬ (isNumberLiteral (.identifier "x") = true ∧ (18 : Int) = 0 ∧ (0 : Int) < 6) →
      ¬ (isNumberLiteral (.identifier "y") = true ∧ (6 : Int) = 0 ∧ (0 : Int) < 18) →
      evaluateNode (.binaryOp .add (.identifier "x") (.identifier "y"))
          [("x", { value := 5, decimals := some 18 }), ("y", { value := 3, decimals := some 6 })]
          .floor []
        = .error (.decimalMismatch 18 6 .add)))
    ∧ ((18 : Int) ≠ 6 ∧ (0 : Int) < 18)
    ∧ (isNumberLiteral (.numberLiteral 7 0) = true → (0 : Int) = 0 → (0 : Int) < 18 →
      ∃ r : EvaluatedValue,
        evaluateNode (.binaryOp .add (.identifier "x") (.numberLiteral 7 0))
            [("x", { value := 5, decimals := some 18 })] .floor []
          = .ok (r, [])
        ∧ r.decimals = 18) := by
  refine ⟨?_, ⟨by decide, by decide⟩, ?_⟩
  · have h := evaluateNode_addsub_scale_rule .add (Or.inl rfl) (.identifier "x") (.identifier "y")
      [("x", { value := 5, decimals := some 18 }), ("y", { value := 3, decimals := some 6 })]
      .floor [] [] [] { value := 5, decimals := 18 } { value := 3, decimals := 6 } rfl rfl
    exact h.1
  · have h := evaluateNode_addsub_scale_rule .add (Or.inl rfl) (.identifier "x") (.numberLiteral 7 0)
      [("x", { value := 5, decimals := some 18 })] .floor [] [] []
      { value := 5, decimals := 18 } { value := 7, decimals := 0 } rfl rfl
    exact h.2.1

/-- Unfolding lemma for `evaluateNode` on a binary operation node. -/
theorem evaluateNode_binaryOp_step (op : BinOp) (l r : ASTNode)
    (vars : List (String × Variable)) (rm : RoundingMode) (tb : List String) :
    evaluateNode (.binaryOp op l r) vars rm tb =
      match evaluateNode l vars rm tb with
      | .error e => .error e
      | .ok (left, tb1) =>
        match evaluateNode r vars rm tb1 with
        | .error e => .error e
        | .ok (right, tb2) =>
          match op with
          | .add => (evalAddSub .add (isNumberLiteral l) (isNumberLiteral r) left right).map (·, tb2)
          | .sub => (evalAddSub .sub (isNumberLiteral l) (isNumberLiteral r) left right).map (·, tb2)
          | .mul => .ok ({ value := left.value * right.value,
                           decimals := multiplyDecimals left.decimals right.decimals }, tb2)
          | .div => (evalDiv rm left right).map (·, tb2) := by
  rfl

/-- C4 counterexample: `5e3` parses to the literal node `{5000, scale 0}`,
and adding it to a variable `x` of scale 18 succeeds at scale 18 — the
scientific-notation literal IS auto-lifted, where the claim requires a
`ScaleMismatchError` because auto-lifting should exclude scientific
literals. -/
theorem scientific_literal_is_lifted_counterexample :
    parseNumberLiteral "5e3" = .ok { value := 5000, decimals := 0 }
    ∧ evaluateNode (.binaryOp .add (.identifier "x") (.numberLiteral 5000 0))
        [("x", { value := 1, decimals := some 18 })] .floor []
      = .ok ({ value := 5001, decimals := 18 }, []) := by
  exact ⟨by rfl, by rfl⟩

/-- C4 amended: scalar auto-lifting in `+`/`-` applies to every operand that
is syntactically a `NUMBER_LITERAL` AST node with evaluated scale 0 whose
sibling operand has scale > 0 — regardless of whether its surface syntax was
bare, scientific (`5e3`), or an absorbed decimal — and never to
identifiers/variables; for every variable `x` with scale > 0, `x + k` lifts
the literal `k` to `x`'s scale. -/
theorem addsub_lifting_scope (vars : List (String × Variable)) (rm : RoundingMode)
    (tb : List String) :
    (∀ (a : ASTNode) (k : Int) (va : EvaluatedValue) (tb1 : List String),
      evaluateNode a vars rm tb = .ok (va, tb1) → 0 < va.decimals →
      evaluateNode (.binaryOp .add a (.numberLiteral k 0)) vars rm tb
        = .ok ({ value := va.value + k, decimals := va.decimals }, tb1))
    ∧ (∀ (x y : String) (vx vy : EvaluatedValue) (tb1 tb2 : List String),
      evaluateNode (.identifier x) vars rm tb = .ok (vx, tb1) →
      evaluateNode (.identifier y) vars rm tb1 = .ok (vy, tb2) →
      vx.decimals ≠ vy.decimals →
      evaluateNode (.binaryOp .add (.identifier x) (.identifier y)) vars rm tb
        = .error (.decimalMismatch vx.decimals vy.decimals .add)) := by
  constructor
  · intro a k va tb1 ha hpos
    have hb : evaluateNode (.numberLiteral k 0) vars rm tb1
        = .ok ({ value := k, decimals := 0 }, tb1) := rfl
    have hlit : isNumberLiteral (.numberLiteral k 0) = true := rfl
    have hm : evalAddSub .add (isNumberLiteral a) true va { value := k, decimals := 0 }
        = .ok { value := va.value + k, decimals := va.decimals } := by
      simpa using evalAddSub_lift_right .add (isNumberLiteral a)
        va { value := k, decimals := 0 } rfl hpos
    simp only [evaluateNode_binaryOp_step, ha, hb, hlit, hm, Except.map]
  · intro x y vx vy tb1 tb2 hx hy hne
    have hlx : isNumberLiteral (.identifier x) = false := rfl
    have hly : isNumberLiteral (.identifier y) = false := rfl
    have hm := evalAddSub_mismatch .add (Or.inl rfl) false false vx vy hne
      (by simp) (by simp)
    simp only [evaluateNode_binaryOp_step, hx, hy, hlx, hly, hm, Except.map]

/-- Closed instance of the C4 amended theorem: `x@18 + 1` lifts the literal;
`x@18 + y@6` (identifiers) fails. -/
theorem addsub_lifting_scope_witness :
    evaluateNode (.binaryOp .add (.identifier "x") (.numberLiteral 1 0))
        [("x", { value := 5, decimals := some 18 }), ("y", { value := 3, decimals := some 6 })]
        .floor []
      = .ok ({ value := 6, decimals := 18 }, [])
    ∧ evaluateNode (.binaryOp .add (.identifier "x") (.identifier "y"))
        [("x", { value := 5, decimals := some 18 }), ("y", { value := 3, decimals := some 6 })]
        .floor []
      = .error (.decimalMismatch 18 6 .add) := by
  have h := addsub_lifting_scope
    [("x", { value := 5, decimals := some 18 }), ("y", { value := 3, decimals := some 6 })]
    .floor []
  exact ⟨h.1 (.identifier "x") 1 { value := 5, decimals := 18 } [] rfl (by decide),
    h.2 "x" "y" { value := 5, decimals := 18 } { value := 3, decimals := 6 } [] [] rfl rfl
      (by decide)⟩

/-- C8: for every division `A ÷ B` (operands evaluating to `va`, `vb`),
evaluation fails with `DivisionByZeroError` if and only if `B`'s magnitude is
0; otherwise it succeeds and the result's scale is `va.decimals -
vb.decimals` (which may be negative), under every rounding mode — the scale
rule never depends on the mode. -/
theorem evaluateNode_div_zero_iff_and_scale (a b : ASTNode) (vars : List (String × Variable))
    (rm : RoundingMode) (tb tb1 tb2 : List String) (va vb : EvaluatedValue)
    (ha : evaluateNode a vars rm tb = .ok (va, tb1))
    (hb : evaluateNode b vars rm tb1 = .ok (vb, tb2)) :
    (evaluateNode (.binaryOp .div a b) vars rm tb = .error .divisionByZero ↔ vb.value = 0)
    ∧ (vb.value ≠ 0 → ∃ r : EvaluatedValue,
        evaluateNode (.binaryOp .div a b) vars rm tb = .ok (r, tb2)
        ∧ r.decimals = va.decimals - vb.decimals) := by
  have hstep : evaluateNode (.binaryOp .div a b) vars rm tb
      = (evalDiv rm va vb).map (·, tb2) := by
    simp [evaluateNode, ha, hb]
  have hok : vb.value ≠ 0 → ∃ r : EvaluatedValue,
      evalDiv rm va vb = .ok r ∧ r.decimals = va.decimals - vb.decimals := by
    intro hz
    unfold evalDiv
    rw [if_neg hz]
    exact ⟨_, rfl, rfl⟩
  by_cases hz : vb.value = 0
  · refine ⟨⟨fun _ => hz, fun _ => ?_⟩, fun h => absurd hz h⟩
    rw [hstep]
    unfold evalDiv
    rw [if_pos hz]
    rfl
  · refine ⟨⟨fun h => ?_, fun h => absurd h hz⟩, fun _ => ?_⟩
    · obtain ⟨r, hr, _⟩ := hok hz
      rw [hstep, hr] at h
      exact absurd h (by simp [Except.map])
    · obtain ⟨r, hr, hrd⟩ := hok hz
      exact ⟨r, by rw [hstep, hr]; rfl, hrd⟩

/-- Closed instance of the C8 theorem at `7@2 ÷ 2@1`. -/
theorem evaluateNode_div_zero_iff_and_scale_witness :
    (evaluateNode (.binaryOp .div (.numberLiteral 7 2) (.numberLiteral 2 1)) [] .floor []
        = .error .divisionByZero ↔ ({ value := 2, decimals := 1 } : EvaluatedValue).value = 0)
    ∧ (({ value := 2, decimals := 1 } : EvaluatedValue).value ≠ 0 → ∃ r : EvaluatedValue,
        evaluateNode (.binaryOp .div (.numberLiteral 7 2) (.numberLiteral 2 1)) [] .floor []
          = .ok (r, [])
        ∧ r.decimals = ({ value := 7, decimals := 2 } : EvaluatedValue).decimals
            - ({ value := 2, decimals := 1 } : EvaluatedValue).decimals) :=
  evaluateNode_div_zero_iff_and_scale (.numberLiteral 7 2) (.numberLiteral 2 1) [] .floor
    [] [] [] { value := 7, decimals := 2 } { value := 2, decimals := 1 } rfl rfl

/-- C1 counterexample: with `usdc = {1000000, 6}` and `weth = {10^18, 18}`,
the comparator `usdc == weth` raises `ComparisonDecimalMismatchError(6, 18)`
instead of normalizing to scale 18 and returning boolean true. -/
theorem evaluateComparison_mismatch_counterexample :
    evaluateComparison .eq (.identifier "usdc") (.identifier "weth")
      [("usdc", { value := 1000000, decimals := some 6 }),
       ("weth", { value := 1000000000000000000, decimals := some 18 })] .floor
    = .error (.comparisonDecimalMismatch 6 18) := by
  rfl

/-- C1 amended: the comparator evaluates both sides independently (phase 1)
and requires their evaluated scales to be exactly equal; when the scales
differ it raises `ComparisonDecimalMismatchError` carrying both scales (no
normalization is performed), and when they agree it compares the raw
magnitudes and returns the boolean with the common scale. -/
theorem evaluateComparison_strict_policy (op : CompOp) (l r : ASTNode)
    (vars : List (String × Variable)) (rm : RoundingMode)
    (lr rr : EvaluationResult)
    (hl : evaluate l vars rm = .ok lr) (hr : evaluate r vars rm = .ok rr) :
    (lr.decimals ≠ rr.decimals →
      evaluateComparison op l r vars rm
        = .error (.comparisonDecimalMismatch lr.decimals rr.decimals))
    ∧ (lr.decimals = rr.decimals →
      evaluateComparison op l r vars rm
        = .ok { result := compareValues op lr.raw rr.raw, operator := op,
                leftHuman := lr.human, rightHuman := rr.human,
                decimals := lr.decimals, warning := lr.warning.or rr.warning }) := by
  constructor
  · intro hne
    simp [evaluateComparison, hl, hr, hne]
  · intro heq
    simp [evaluateComparison, hl, hr, heq]

/-- Closed instance of the C1 amended theorem at the `usdc == weth` input. -/
theorem evaluateComparison_strict_policy_witness :
    ((6 : Int) ≠ 18 →
      evaluateComparison .eq (.identifier "usdc") (.identifier "weth")
        [("usdc", { value := 1000000, decimals := some 6 }),
         ("weth", { value := 1000000000000000000, decimals := some 18 })] .floor
        = .error (.comparisonDecimalMismatch 6 18))
    ∧ ((6 : Int) = 18 →
      evaluateComparison .eq (.identifier "usdc") (.identifier "weth")
        [("usdc", { value := 1000000, decimals := some 6 }),
         ("weth", { value := 1000000000000000000, decimals := some 18 })] .floor
        = .ok { result := compareValues .eq 1000000 1000000000000000000, operator := .eq,
                leftHuman := "1.000000", rightHuman := "1.000000000000000000",
                decimals := 6, warning := none }) :=
  evaluateComparison_strict_policy .eq (.identifier "usdc") (.identifier "weth")
    [("usdc", { value := 1000000, decimals := some 6 }),
     ("weth", { value := 1000000000000000000, decimals := some 18 })] .floor
    { raw := 1000000, decimals := 6, human := "1.000000", solidity := 1000000,
      roundingLoss := "0", warning := none }
    { raw := 1000000000000000000, decimals := 18, human := "1.000000000000000000",
      solidity := 1000000000000000000, roundingLoss := "0", warning := none }
    (by rfl) (by rfl)

/-- Unfolding lemma for `evaluateNode` on an exponentiation node whose base
is a number literal. -/
theorem evaluateNode_expo_step (bv bd : Int) (e : ASTNode)
    (vars : List (String × Variable)) (rm : RoundingMode) (tb : List String) :
    evaluateNode (.exponentiation (.numberLiteral bv bd) e) vars rm tb =
      if bv = 10 then
        match evaluateNode e vars rm tb with
        | .error err => .error err
        | .ok (exponent, tb1) =>
          if exponent.decimals ≠ 0 then
            .error (.invalidExponentiation .exponentNotDimensionless)
          else if ¬ isJsSafeInteger exponent.value then
            .error (.invalidExponentiation .exponentTooLarge)
          else if exponent.value < 0 then
            .error (.invalidExponentiation .exponentNegative)
          else
            .ok ({ value := 10 ^ exponent.value.toNat, decimals := exponent.value }, tb1)
      else .error (.invalidExponentiation .baseNot10) := by
  rfl

/-- C5: evaluating an exponentiation node succeeds if and only if the base is
syntactically a number-literal node with magnitude 10 and the evaluated
exponent has scale exactly 0 with a non-negative magnitude in the safe
machine-integer range (`≤ 2^53 - 1`), in which case the result is
`{10^n, scale n}`; every violation raises `InvalidExponentiationError`,
e.g. for `2 ** 8`, for `x ** 2`, and for `10 ** n` when `n` has scale > 0. -/
theorem evaluateNode_expo_rule (vars : List (String × Variable)) (rm : RoundingMode)
    (tb : List String) :
    (∀ b e : ASTNode, isNumberLiteral b = false →
      evaluateNode (.exponentiation b e) vars rm tb
        = .error (.invalidExponentiation .baseNotLiteral))
    ∧ (∀ (bv bd : Int) (e : ASTNode), bv ≠ 10 →
      evaluateNode (.exponentiation (.numberLiteral bv bd) e) vars rm tb
        = .error (.invalidExponentiation .baseNot10))
    ∧ (∀ (bd : Int) (e : ASTNode) (ev : EvaluatedValue) (tb1 : List String),
      evaluateNode e vars rm tb = .ok (ev, tb1) →
      (ev.decimals ≠ 0 →
        evaluateNode (.exponentiation (.numberLiteral 10 bd) e) vars rm tb
          = .error (.invalidExponentiation .exponentNotDimensionless))
      ∧ (ev.decimals = 0 → 2 ^ 53 - 1 < ev.value.natAbs →
        evaluateNode (.exponentiation (.numberLiteral 10 bd) e) vars rm tb
          = .error (.invalidExponentiation .exponentTooLarge))
      ∧ (ev.decimals = 0 → ev.value.natAbs ≤ 2 ^ 53 - 1 → ev.value < 0 →
        evaluateNode (.exponentiation (.numberLiteral 10 bd) e) vars rm tb
          = .error (.invalidExponentiation .exponentNegative))
      ∧ (ev.decimals = 0 → 0 ≤ ev.value → ev.value.natAbs ≤ 2 ^ 53 - 1 →
        evaluateNode (.exponentiation (.numberLiteral 10 bd) e) vars rm tb
          = .ok ({ value := 10 ^ ev.value.toNat, decimals := ev.value }, tb1)))
    ∧ evaluateNode (.exponentiation (.numberLiteral 10 0) (.numberLiteral 18 0)) vars rm tb
        = .ok ({ value := 10 ^ (18 : Nat), decimals := 18 }, tb)
    ∧ evaluateNode (.exponentiation (.numberLiteral 2 0) (.numberLiteral 8 0)) vars rm tb
        = .error (.invalidExponentiation .baseNot10)
    ∧ evaluateNode (.exponentiation (.identifier "x") (.numberLiteral 2 0)) vars rm tb
        = .error (.invalidExponentiation .baseNotLiteral)
    ∧ evaluateNode (.exponentiation (.numberLiteral 10 0) (.identifier "n"))
        [("n", { value := 5, decimals := some 6 })] rm tb
        = .error (.invalidExponentiation .exponentNotDimensionless) := by
  refine ⟨?_, ?_, ?_, ?_, ?_, ?_, ?_⟩
  · intro b e hb
    cases b <;> simp [isNumberLiteral] at hb ⊢ <;> rfl
  · intro bv bd e hbv
    rw [evaluateNode_expo_step, if_neg hbv]
  · intro bd e ev tb1 he
    have hstep : evaluateNode (.exponentiation (.numberLiteral 10 bd) e) vars rm tb =
        if ev.decimals ≠ 0 then
          .error (.invalidExponentiation .exponentNotDimensionless)
        else if ¬ isJsSafeInteger ev.value then
          .error (.invalidExponentiation .exponentTooLarge)
        else if ev.value < 0 then
          .error (.invalidExponentiation .exponentNegative)
        else
          .ok ({ value := 10 ^ ev.value.toNat, decimals := ev.value }, tb1) := by
      rw [evaluateNode_expo_step, if_pos rfl, he]
    refine ⟨?_, ?_, ?_, ?_⟩
    · intro hd
      rw [hstep, if_pos hd]
    · intro hd hlarge
      have hsafe : isJsSafeInteger ev.value = false := by
        simp [isJsSafeInteger]; omega
      rw [hstep, if_neg (fun h => h hd), if_pos (by simp [hsafe])]
    · intro hd hsmall hneg
      have hsafe : isJsSafeInteger ev.value = true := by
        simp [isJsSafeInteger]; omega
      rw [hstep, if_neg (fun h => h hd), if_neg (by simp [hsafe]), if_pos hneg]
    · intro hd hnonneg hsmall
      have hsafe : isJsSafeInteger ev.value = true := by
        simp [isJsSafeInteger]; omega
      have hneg : ¬ ev.value < 0 := by omega
      rw [hstep, if_neg (fun h => h hd), if_neg (by simp [hsafe]), if_neg hneg]
  · rfl
  · rfl
  · rfl
  · rfl

/-- Closed instance of the C5 theorem: `10 ** 18` (exponent evaluating to
`{18, scale 0}`) succeeds with `{10^18, scale 18}`. -/
theorem evaluateNode_expo_rule_witness :
    ((0 : Int) ≠ 0 →
      evaluateNode (.exponentiation (.numberLiteral 10 0) (.numberLiteral 18 0)) [] .floor []
        = .error (.invalidExponentiation .exponentNotDimensionless))
    ∧ ((0 : Int) = 0 → 2 ^ 53 - 1 < (18 : Int).natAbs →
      evaluateNode (.exponentiation (.numberLiteral 10 0) (.numberLiteral 18 0)) [] .floor []
        = .error (.invalidExponentiation .exponentTooLarge))
    ∧ ((0 : Int) = 0 → (18 : Int).natAbs ≤ 2 ^ 53 - 1 → (18 : Int) < 0 →
      evaluateNode (.exponentiation (.numberLiteral 10 0) (.numberLiteral 18 0)) [] .floor []
        = .error (.invalidExponentiation .exponentNegative))
    ∧ ((0 : Int) = 0 → (0 : Int) ≤ 18 → (18 : Int).natAbs ≤ 2 ^ 53 - 1 →
      evaluateNode (.exponentiation (.numberLiteral 10 0) (.numberLiteral 18 0)) [] .floor []
        = .ok ({ value := 10 ^ (18 : Int).toNat, decimals := 18 }, [])) := by
  have h := (evaluateNode_expo_rule [] .floor []).2.2.1 0 (.numberLiteral 18 0)
    { value := 18, decimals := 0 } [] rfl
  exact h

/-! ### Truncating versus flooring division -/

/-- When the operands have the same sign, truncating division agrees with the
mathematical floor. -/
theorem tdiv_eq_fdiv_of_same_sign (a b : Int)
    (h : (0 ≤ a ∧ 0 < b) ∨ (a ≤ 0 ∧ b < 0)) :
    Int.tdiv a b = Int.fdiv a b := by
  rcases h with ⟨ha, hb⟩ | ⟨ha, hb⟩
  · exact (Int.fdiv_eq_tdiv ha (le_of_lt hb)).symm
  · cases a with
    | ofNat m =>
      have hm : m = 0 := by
        rw [Int.ofNat_eq_natCast] at ha; omega
      subst hm
      show Int.tdiv 0 b = Int.fdiv 0 b
      rw [Int.zero_tdiv, Int.zero_fdiv]
    | negSucc m =>
      cases b with
      | ofNat n =>
        rw [Int.ofNat_eq_natCast] at hb; omega
      | negSucc n => rfl

/-- When the dividend is negative, the divisor positive, and the division
inexact, truncating division is one more than the mathematical floor. -/
theorem tdiv_eq_fdiv_add_one_of_neg_pos (a b : Int) (ha : a < 0) (hb : 0 < b)
    (hr : Int.tmod a b ≠ 0) : Int.tdiv a b = Int.fdiv a b + 1 := by
  cases a with
  | ofNat m => rw [Int.ofNat_eq_natCast] at ha; omega
  | negSucc m =>
    cases b with
    | ofNat n =>
      cases n with
      | zero => rw [Int.ofNat_eq_natCast] at hb; omega
      | succ k =>
        have hmod : (m + 1) % (k + 1) ≠ 0 := by
          intro h0
          apply hr
          show -(Int.ofNat ((m + 1) % (k + 1))) = 0
          rw [h0]
          rfl
        have hdvd : ¬ (k + 1) ∣ (m + 1) := by
          rw [Nat.dvd_iff_mod_eq_zero]; exact hmod
        have hdiv : (m + 1) / (k + 1) = m / (k + 1) := by
          rw [Nat.succ_div, if_neg hdvd, Nat.add_zero]
        show -(Int.ofNat ((m + 1) / (k + 1))) = Int.negSucc (m / (k + 1)) + 1
        rw [hdiv, Int.negSucc_eq, Int.ofNat_eq_natCast]
        omega
    | negSucc n => rw [Int.negSucc_eq] at hb; omega

/-- When the dividend is non-negative, the divisor negative, and the division
inexact, truncating division is one more than the mathematical floor. -/
theorem tdiv_eq_fdiv_add_one_of_nonneg_neg (a b : Int) (ha : 0 ≤ a) (hb : b < 0)
    (hr : Int.tmod a b ≠ 0) : Int.tdiv a b = Int.fdiv a b + 1 := by
  cases b with
  | ofNat n => rw [Int.ofNat_eq_natCast] at hb; omega
  | negSucc n =>
    cases a with
    | ofNat m =>
      cases m with
      | zero =>
        exact absurd (by rfl : Int.tmod (Int.ofNat 0) (Int.negSucc n) = 0) hr
      | succ k =>
        have hmod : (k + 1) % (n + 1) ≠ 0 := by
          intro h0
          apply hr
          show Int.ofNat ((k + 1) % (n + 1)) = 0
          rw [h0]
          rfl
        have hdvd : ¬ (n + 1) ∣ (k + 1) := by
          rw [Nat.dvd_iff_mod_eq_zero]; exact hmod
        have hdiv : (k + 1) / (n + 1) = k / (n + 1) := by
          rw [Nat.succ_div, if_neg hdvd, Nat.add_zero]
        show -(Int.ofNat ((k + 1) / (n + 1))) = Int.negSucc (k / (n + 1)) + 1
        rw [hdiv, Int.negSucc_eq, Int.ofNat_eq_natCast]
        omega
    | negSucc m => rw [Int.negSucc_eq] at ha; omega

/-- The standalone `floorDivide` helper computes the mathematical floor. -/
theorem floorDivide_eq_fdiv (a b : Int) (hb : b ≠ 0) :
    floorDivide a b = Int.fdiv a b := by
  unfold floorDivide
  by_cases hr : Int.tmod a b = 0
  · rw [if_pos hr]
    have hmul : b * Int.tdiv a b = a := Int.mul_tdiv_cancel_of_tmod_eq_zero hr
    calc Int.tdiv a b = Int.fdiv (b * Int.tdiv a b) b := by
          rw [Int.mul_fdiv_cancel_left _ hb]
      _ = Int.fdiv a b := by rw [hmul]
  · rw [if_neg hr]
    by_cases hsd : (decide (a < 0) ≠ decide (b < 0))
    · rw [if_pos hsd]
      by_cases hA : a < 0
      · have hBpos : 0 < b := by
          by_contra hB
          apply hsd
          simp [hA, lt_of_le_of_ne (not_lt.mp hB) hb]
        rw [tdiv_eq_fdiv_add_one_of_neg_pos a b hA hBpos hr]
        omega
      · have hBneg : b < 0 := by
          by_contra hB
          apply hsd
          simp [hA, hB]
        rw [tdiv_eq_fdiv_add_one_of_nonneg_neg a b (not_lt.mp hA) hBneg hr]
        omega
    · rw [if_neg hsd]
      have heq : decide (a < 0) = decide (b < 0) := not_ne_iff.mp hsd
      by_cases hA : a < 0
      · have hB : b < 0 := by
          have := heq
          rw [decide_eq_true hA] at this
          exact of_decide_eq_true this.symm
        exact tdiv_eq_fdiv_of_same_sign a b (Or.inr ⟨le_of_lt hA, hB⟩)
      · have hB : ¬ b < 0 := by
          have := heq
          rw [decide_eq_false hA] at this
          intro hBlt
          rw [decide_eq_true hBlt] at this
          exact Bool.false_ne_true this
        exact tdiv_eq_fdiv_of_same_sign a b
          (Or.inl ⟨not_lt.mp hA, lt_of_le_of_ne (not_lt.mp hB) (Ne.symm hb)⟩)

/-- C10: in floor rounding mode the evaluator's `÷` magnitude is truncating
(toward-zero) bigint division, not the mathematical floor: for same-sign
operands the quotient equals `Int.fdiv`, but for a negative dividend and a
positive divisor with a non-zero remainder it equals `Int.fdiv + 1` (e.g. a
variable holding −7 divided by 2 yields −3 while the floor is −4), even
though the standalone `floorDivide` helper does return the mathematical
floor. -/
theorem evaluateNode_floor_div_truncates (a b : ASTNode) (vars : List (String × Variable))
    (tb tb1 tb2 : List String) (va vb : EvaluatedValue)
    (ha : evaluateNode a vars .floor tb = .ok (va, tb1))
    (hb : evaluateNode b vars .floor tb1 = .ok (vb, tb2))
    (hz : vb.value ≠ 0) :
    ((0 ≤ va.value ∧ 0 < vb.value) ∨ (va.value ≤ 0 ∧ vb.value < 0) →
      ∃ r : EvaluatedValue,
        evaluateNode (.binaryOp .div a b) vars .floor tb = .ok (r, tb2)
        ∧ r.value = Int.fdiv va.value vb.value)
    ∧ (va.value < 0 → 0 < vb.value → Int.tmod va.value vb.value ≠ 0 →
      ∃ r : EvaluatedValue,
        evaluateNode (.binaryOp .div a b) vars .floor tb = .ok (r, tb2)
        ∧ r.value = Int.fdiv va.value vb.value + 1)
    ∧ (∀ x y : Int, y ≠ 0 → floorDivide x y = Int.fdiv x y)
    ∧ (evaluate (.binaryOp .div (.identifier "v") (.numberLiteral 2 0))
          [("v", { value := -7, decimals := some 0 })] .floor
        = .ok { raw := -3, decimals := 0, human := "-3", solidity := -3,
                roundingLoss := "-0.5", warning := none }
      ∧ Int.fdiv (-7) 2 = -4) := by
  have hq : evalDiv .floor va vb = .ok
      { value := Int.tdiv va.value vb.value,
        decimals := divideDecimals va.decimals vb.decimals,
        divisionRemainder :=
          if Int.tmod va.value vb.value ≠ 0 then some (Int.tmod va.value vb.value) else none,
        divisionDivisor :=
          if Int.tmod va.value vb.value ≠ 0 then some vb.value else none,
        divisionResultDecimals :=
          if Int.tmod va.value vb.value ≠ 0
          then some (divideDecimals va.decimals vb.decimals) else none } := by
    unfold evalDiv
    rw [if_neg hz]
  have hnode : evaluateNode (.binaryOp .div a b) vars .floor tb
      = .ok ({ value := Int.tdiv va.value vb.value,
               decimals := divideDecimals va.decimals vb.decimals,
               divisionRemainder :=
                 if Int.tmod va.value vb.value ≠ 0
                 then some (Int.tmod va.value vb.value) else none,
               divisionDivisor :=
                 if Int.tmod va.value vb.value ≠ 0 then some vb.value else none,
               divisionResultDecimals :=
                 if Int.tmod va.value vb.value ≠ 0
                 then some (divideDecimals va.decimals vb.decimals) else none }, tb2) := by
    simp only [evaluateNode_binaryOp_step, ha, hb, hq, Except.map]
  refine ⟨?_, ?_, ?_, by rfl, by rfl⟩
  · intro hsign
    exact ⟨_, hnode, tdiv_eq_fdiv_of_same_sign va.value vb.value hsign⟩
  · intro hneg hpos hrem
    exact ⟨_, hnode, tdiv_eq_fdiv_add_one_of_neg_pos va.value vb.value hneg hpos hrem⟩
  · intro x y hy
    exact floorDivide_eq_fdiv x y hy

/-- Closed instance of the C10 theorem at `v = −7` divided by the literal 2
in floor mode. -/
theorem evaluateNode_floor_div_truncates_witness :
    ((-7 : Int) < 0 → (0 : Int) < 2 → Int.tmod (-7) 2 ≠ 0 →
      ∃ r : EvaluatedValue,
        evaluateNode (.binaryOp .div (.identifier "v") (.numberLiteral 2 0))
            [("v", { value := -7, decimals := some 0 })] .floor []
          = .ok (r, [])
        ∧ r.value = Int.fdiv (-7) 2 + 1)
    ∧ ((2 : Int) ≠ 0 → floorDivide (-7) 2 = Int.fdiv (-7) 2) := by
  have h := evaluateNode_floor_div_truncates (.identifier "v") (.numberLiteral 2 0)
    [("v", { value := -7, decimals := some 0 })] [] [] []
    { value := -7, decimals := 0 } { value := 2, decimals := 0 } rfl rfl (by decide)
  exact ⟨h.2.1, fun hy => h.2.2.1 (-7) 2 hy⟩

/-! ### The wrap-around formulas -/

/-- For a positive modulus the truncating remainder exceeds `-r`. -/
theorem neg_lt_tmod (v r : Int) (hr : 0 < r) : -r < Int.tmod v r := by
  cases v with
  | ofNat m =>
    have h0 : (0 : Int) ≤ Int.tmod (Int.ofNat m) r :=
      Int.tmod_nonneg r (by rw [Int.ofNat_eq_natCast]; exact Int.natCast_nonneg m)
    omega
  | negSucc m =>
    cases r with
    | ofNat n =>
      cases n with
      | zero => rw [Int.ofNat_eq_natCast] at hr; omega
      | succ k =>
        show -(Int.ofNat (k + 1)) < -(Int.ofNat ((m + 1) % (k + 1)))
        have hlt : (m + 1) % (k + 1) < k + 1 := Nat.mod_lt _ (by omega)
        rw [Int.ofNat_eq_natCast, Int.ofNat_eq_natCast]
        omega
    | negSucc n => rw [Int.negSucc_eq] at hr; omega

/-- Shifting a negative truncating remainder into range yields the Euclidean
remainder. -/
theorem tmod_fix_eq_emod (v r : Int) (hr : 0 < r) :
    (if Int.tmod v r < 0 then Int.tmod v r + r else Int.tmod v r) = Int.emod v r := by
  by_cases hneg : Int.tmod v r < 0
  · rw [if_pos hneg]
    have hsum : (Int.tmod v r + r) + r * (Int.tdiv v r - 1) = v := by
      linear_combination Int.tdiv_add_tmod v r
    have hge : 0 ≤ Int.tmod v r + r := by have := neg_lt_tmod v r hr; omega
    have hlt : Int.tmod v r + r < r := by omega
    exact (((Int.ediv_emod_unique hr).mpr ⟨hsum, hge, hlt⟩).2).symm
  · rw [if_neg hneg]
    have hsum : Int.tmod v r + r * Int.tdiv v r = v := by
      linear_combination Int.tdiv_add_tmod v r
    have hge : 0 ≤ Int.tmod v r := by omega
    have hlt : Int.tmod v r < r := Int.tmod_lt_of_pos v hr
    exact (((Int.ediv_emod_unique hr).mpr ⟨hsum, hge, hlt⟩).2).symm

/-- Adding the modulus before reducing again does not change the Euclidean
remainder. -/
theorem emod_add_self_emod (v r : Int) : Int.emod (Int.emod v r + r) r = Int.emod v r := by
  show (v % r + r) % r = v % r
  simp

/-- The claim's wrapped-value formula, written from the specification's
words: `((value mod 2^N) + 2^N) mod 2^N` with mathematical (Euclidean) `mod`
for unsigned types, and the signed representation obtained by subtracting
`2^N` when the unsigned wrap is at least `2^(N-1)`. -/
def claimedWrap (value : Int) (bits : Nat) (isSigned : Bool) : Int :=
  if isSigned then
    if 2 ^ (bits - 1) ≤ Int.emod (Int.emod value (2 ^ bits) + 2 ^ bits) (2 ^ bits) then
      Int.emod (Int.emod value (2 ^ bits) + 2 ^ bits) (2 ^ bits) - 2 ^ bits
    else Int.emod (Int.emod value (2 ^ bits) + 2 ^ bits) (2 ^ bits)
  else Int.emod (Int.emod value (2 ^ bits) + 2 ^ bits) (2 ^ bits)

/-- The evaluator's wrapped value agrees with the claim's formula. -/
theorem calculateWrappedValue_eq_claimedWrap (v : Int) (bits : Nat) (sgn : Bool) :
    calculateWrappedValue v bits sgn = claimedWrap v bits sgn := by
  have hr : (0 : Int) < 2 ^ bits := by positivity
  have hfix := tmod_fix_eq_emod v (2 ^ bits) hr
  have hwu := emod_add_self_emod v (2 ^ bits)
  cases sgn with
  | false =>
    show (if Int.tmod v (2 ^ bits) < 0 then Int.tmod v (2 ^ bits) + 2 ^ bits
          else Int.tmod v (2 ^ bits)) = claimedWrap v bits false
    rw [hfix]
    unfold claimedWrap
    rw [if_neg (by simp), hwu]
  | true =>
    show (if (2 : Int) ^ (bits - 1) ≤
            (if Int.tmod v (2 ^ bits) < 0 then Int.tmod v (2 ^ bits) + 2 ^ bits
             else Int.tmod v (2 ^ bits))
          then (if Int.tmod v (2 ^ bits) < 0 then Int.tmod v (2 ^ bits) + 2 ^ bits
                else Int.tmod v (2 ^ bits)) - 2 ^ bits
          else (if Int.tmod v (2 ^ bits) < 0 then Int.tmod v (2 ^ bits) + 2 ^ bits
                else Int.tmod v (2 ^ bits))) = claimedWrap v bits true
    rw [hfix]
    unfold claimedWrap
    rw [if_pos rfl, hwu]

/-- Spec-side predicate, from the claim's words: the final magnitude falls
outside the `[min, max]` range of the named bounded-integer type. -/
def violatesRange (value : Int) (t : String) : Bool :=
  match parseUintIntType t with
  | none => false
  | some (isSigned, bits) =>
    decide (typeMax isSigned bits < value) || decide (value < typeMin isSigned bits)

/-- Spec-side warning, from the claim's words: kind overflow above max,
underflow below min, wrapped value by the claimed formula.  (The `none`
branch is junk — `violatesRange` is false there, so it is never selected.) -/
def claimedWarning (value : Int) (t : String) : OverflowWarning :=
  match parseUintIntType t with
  | none => { solidityType := t, kind := .overflow, wrappedValue := 0, wrappedHuman := "0" }
  | some (isSigned, bits) =>
    { solidityType := t,
      kind := if typeMax isSigned bits < value then .overflow else .underflow,
      wrappedValue := claimedWrap value bits isSigned,
      wrappedHuman := bigintToString (claimedWrap value bits isSigned) }

/-- `detectOverflow` reports exactly the first referenced type whose range is
violated, with the claim's kind and wrapped value. -/
theorem detectOverflow_eq_first_violation (v : Int) (ts : List String) :
    detectOverflow v ts = Option.map (claimedWarning v) (List.find? (violatesRange v) ts) := by
  induction ts with
  | nil => rfl
  | cons t rest ih =>
    by_cases hviol : violatesRange v t = true
    · rw [List.find?_cons_of_pos _ hviol]
      unfold detectOverflow
      cases hp : parseUintIntType t with
      | none => rw [violatesRange, hp] at hviol; simp at hviol
      | some p =>
        obtain ⟨sg, bits⟩ := p
        dsimp only
        rw [violatesRange, hp] at hviol
        simp only [Bool.or_eq_true, decide_eq_true_eq] at hviol
        by_cases hover : typeMax sg bits < v
        · rw [if_pos hover]
          rw [show Option.map (claimedWarning v) (some t) = some (claimedWarning v t) from rfl]
          rw [claimedWarning, hp, calculateWrappedValue_eq_claimedWrap]
          dsimp only
          rw [if_pos hover]
        · rcases hviol with h | hunder
          · exact absurd h hover
          · rw [if_neg hover, if_pos hunder]
            rw [show Option.map (claimedWarning v) (some t) = some (claimedWarning v t) from rfl]
            rw [claimedWarning, hp, calculateWrappedValue_eq_claimedWrap]
            dsimp only
            rw [if_neg hover]
    · rw [List.find?_cons_of_neg _ hviol]
      unfold detectOverflow
      cases hp : parseUintIntType t with
      | none => exact ih
      | some p =>
        obtain ⟨sg, bits⟩ := p
        dsimp only
        rw [violatesRange, hp] at hviol
        simp only [Bool.or_eq_true, decide_eq_true_eq, not_or, not_lt] at hviol
        rw [if_neg (by omega), if_neg (by omega)]
        exact ih

/-- C7: when the final result has scale exactly 0 and a bounded-integer type
was referenced, the evaluator reports the first referenced type whose
`[min, max]` range the final magnitude falls outside, with kind overflow
above max and underflow below min, and the wrapped value given by
`((value mod 2^N) + 2^N) mod 2^N` for unsigned N-bit types and, for signed
types, the unsigned wrap minus `2^N` when it is at least `2^(N-1)`; when the
final scale is non-zero no warning is attached.  Concretely for `uint8`, 256
wraps to 0 and 257 wraps to 1, and for `int8`, 128 wraps to −128. -/
theorem evaluate_overflow_detection :
    (∀ (v : Int) (bits : Nat),
      calculateWrappedValue v bits false
        = Int.emod (Int.emod v (2 ^ bits) + 2 ^ bits) (2 ^ bits))
    ∧ (∀ (v : Int) (bits : Nat),
      calculateWrappedValue v bits true
        = if 2 ^ (bits - 1) ≤ Int.emod (Int.emod v (2 ^ bits) + 2 ^ bits) (2 ^ bits)
          then Int.emod (Int.emod v (2 ^ bits) + 2 ^ bits) (2 ^ bits) - 2 ^ bits
          else Int.emod (Int.emod v (2 ^ bits) + 2 ^ bits) (2 ^ bits))
    ∧ (∀ (v : Int) (ts : List String),
      detectOverflow v ts = Option.map (claimedWarning v) (List.find? (violatesRange v) ts))
    ∧ (∀ (ast : ASTNode) (vars : List (String × Variable)) (rm : RoundingMode)
        (res : EvaluationResult),
      evaluate ast vars rm = .ok res → res.decimals ≠ 0 → res.warning = none)
    ∧ calculateWrappedValue 256 8 false = 0
    ∧ calculateWrappedValue 257 8 false = 1
    ∧ calculateWrappedValue 128 8 true = -128
    ∧ detectOverflow 256 ["uint8"]
        = some { solidityType := "uint8", kind := .overflow, wrappedValue := 0,
                 wrappedHuman := "0" }
    ∧ evaluate (.binaryOp .add (.typeBoundLiteral (2 ^ 8 - 1) "uint8" true) (.numberLiteral 1 0))
        [] .floor
        = .ok { raw := 256, decimals := 0, human := "256", solidity := 256, roundingLoss := "0",
                warning := some { solidityType := "uint8", kind := .overflow, wrappedValue := 0,
                                  wrappedHuman := "0" } } := by
  refine ⟨?_, ?_, detectOverflow_eq_first_violation, ?_, by rfl, by rfl, by rfl, by rfl, by rfl⟩
  · intro v bits
    rw [calculateWrappedValue_eq_claimedWrap, claimedWrap]
    rw [if_neg (by simp)]
  · intro v bits
    rw [calculateWrappedValue_eq_claimedWrap, claimedWrap]
    rw [if_pos rfl]
  · intro ast vars rm res hres hd
    revert hres
    unfold evaluate
    cases hN : evaluateNode ast vars rm [] with
    | error e => intro h; exact absurd h (by simp)
    | ok p =>
      obtain ⟨result, tbs⟩ := p
      intro h
      rw [Except.ok.injEq] at h
      subst h
      simp only at hd ⊢
      rw [if_neg hd]

/-- Closed instance of the C7 theorem: the wrap formula at `v = 256`,
`uint8`, and the no-warning clause at a scale-18 variable evaluation. -/
theorem evaluate_overflow_detection_witness :
    calculateWrappedValue 256 8 false
      = Int.emod (Int.emod 256 (2 ^ 8) + 2 ^ 8) (2 ^ 8)
    ∧ detectOverflow 256 ["uint8"]
        = Option.map (claimedWarning 256) (List.find? (violatesRange 256) ["uint8"])
    ∧ (evaluate (.identifier "a") [("a", { value := 5, decimals := some 18 })] .floor
        = .ok { raw := 5, decimals := 18, human := "0.000000000000000005", solidity := 5,
                roundingLoss := "0", warning := none } → (18 : Int) ≠ 0 →
        ({ raw := 5, decimals := 18, human := "0.000000000000000005", solidity := 5,
           roundingLoss := "0", warning := none } : EvaluationResult).warning = none)
    ∧ ((18 : Int) ≠ 0) := by
  refine ⟨evaluate_overflow_detection.1 256 8, evaluate_overflow_detection.2.2.1 256 ["uint8"],
    ?_, by decide⟩
  intro h hd
  exact evaluate_overflow_detection.2.2.2.1 (.identifier "a")
    [("a", { value := 5, decimals := some 18 })] .floor _ h hd

/-! ### Digit-string lemmas -/

/-- ASCII lower-casing fixes digit characters. -/
theorem asciiToLower_digit (c : Char) (h : isDigitCharB c = true) : asciiToLower c = c := by
  simp only [isDigitCharB, Bool.and_eq_true, decide_eq_true_eq] at h
  unfold asciiToLower
  rw [if_neg (by omega)]

/-- ASCII lower-casing fixes a list of digit characters. -/
theorem map_asciiToLower_digits (l : List Char) (h : ∀ c ∈ l, isDigitCharB c = true) :
    l.map asciiToLower = l := by
  induction l with
  | nil => rfl
  | cons c rest ih =>
    rw [List.map_cons, asciiToLower_digit c (h c (by simp)),
      ih (fun d hd => h d (by simp [hd]))]

/-- A digit character is none of the special characters used by the number
grammar. -/
theorem digit_char_ne (c : Char) (h : isDigitCharB c = true) :
    c ≠ 'e' ∧ c ≠ '-' ∧ c ≠ '+' ∧ c ≠ '.' := by
  refine ⟨?_, ?_, ?_, ?_⟩ <;> (intro hc; subst hc; exact absurd h (by decide))

/-- Splitting a separator-free list yields the single chunk. -/
theorem splitOnChar_of_not_mem (sep : Char) (l : List Char) (h : sep ∉ l) :
    splitOnChar sep l = [l] := by
  induction l with
  | nil => rfl
  | cons c rest ih =>
    have hc : ¬ c = sep := fun hc => h (by simp [hc])
    unfold splitOnChar
    rw [if_neg hc, ih (fun hm => h (by simp [hm]))]

/-- Splitting around the first separator occurrence. -/
theorem splitOnChar_append (sep : Char) (xs ys : List Char) (h : sep ∉ xs) :
    splitOnChar sep (xs ++ sep :: ys) = xs :: splitOnChar sep ys := by
  induction xs with
  | nil =>
    show splitOnChar sep (sep :: ys) = [] :: splitOnChar sep ys
    conv_lhs => rw [splitOnChar.eq_def]
    dsimp only
    rw [if_pos rfl]
  | cons c xs' ih =>
    have hc : ¬ c = sep := fun hc => h (by simp [hc])
    show splitOnChar sep (c :: (xs' ++ sep :: ys)) = (c :: xs') :: splitOnChar sep ys
    conv_lhs => rw [splitOnChar.eq_def]
    dsimp only
    rw [if_neg hc, ih (fun hm => h (by simp [hm]))]

/-- `leadingDigits` keeps an all-digit list whole. -/
theorem leadingDigits_of_all_digits (l : List Char) (h : ∀ c ∈ l, isDigitCharB c = true) :
    leadingDigits l = l := by
  induction l with
  | nil => rfl
  | cons c rest ih =>
    unfold leadingDigits
    rw [if_pos (h c (by simp)), ih (fun d hd => h d (by simp [hd]))]

/-- `parseInt` on a non-empty unsigned digit string. -/
theorem jsParseInt_digits (l : List Char) (hne : l ≠ [])
    (h : ∀ c ∈ l, isDigitCharB c = true) :
    jsParseInt l = some (digitsToNat l : Int) := by
  cases l with
  | nil => exact absurd rfl hne
  | cons c rest =>
    have hd := h c (by simp)
    obtain ⟨-, hm, hp, -⟩ := digit_char_ne c hd
    unfold jsParseInt
    dsimp only
    rw [if_neg hm, if_neg hp, leadingDigits_of_all_digits _ h]

/-- `BigInt` on a non-empty unsigned digit string. -/
theorem jsBigInt_digits (l : List Char) (hne : l ≠ [])
    (h : ∀ c ∈ l, isDigitCharB c = true) :
    jsBigInt l = some (digitsToNat l : Int) := by
  cases l with
  | nil => exact absurd rfl hne
  | cons c rest =>
    have hd := h c (by simp)
    obtain ⟨-, hm, hp, -⟩ := digit_char_ne c hd
    unfold jsBigInt
    dsimp only
    rw [if_neg hm, if_neg hp, if_pos (by simpa [List.all_eq_true] using h)]

/-- The mantissa-`"1"` arm of the scientific-literal parse. -/
theorem parseSciLiteral_mantissa_one (e : List Char) (hne : e ≠ [])
    (hdig : ∀ c ∈ e, isDigitCharB c = true) :
    parseSciLiteral [['1'], e]
      = .ok { value := (10 : Int) ^ digitsToNat e, decimals := (digitsToNat e : Int) } := by
  unfold parseSciLiteral
  dsimp only [List.headD, List.drop]
  rw [if_pos rfl, jsParseInt_digits e hne hdig]
  dsimp only
  rw [if_neg (by omega)]
  rw [Except.ok.injEq, NumberLit.mk.injEq]
  exact ⟨by rw [Int.toNat_natCast], rfl⟩

/-- The other-mantissa arm of the scientific-literal parse. -/
theorem parseSciLiteral_mantissa_other (m e : List Char) (hmne : m ≠ []) (hene : e ≠ [])
    (hm1 : m ≠ ['1']) (hmdig : ∀ c ∈ m, isDigitCharB c = true)
    (hedig : ∀ c ∈ e, isDigitCharB c = true) :
    parseSciLiteral [m, e]
      = .ok { value := (digitsToNat m : Int) * 10 ^ digitsToNat e, decimals := 0 } := by
  unfold parseSciLiteral
  dsimp only [List.headD, List.drop]
  rw [if_neg hm1]
  unfold parseScientificNotation
  rw [if_neg (by simp [hmne, hene]), jsBigInt_digits m hmne hmdig, jsParseInt_digits e hene hedig]
  dsimp only
  rw [if_neg (by omega)]
  rw [Int.toNat_natCast]

/-- C2: a scientific-notation literal whose mantissa text is exactly `"1"`
parses to the scale constant `{10^exp, scale exp}`, while any
scientific-notation literal with a different digit mantissa parses to the
plain integer `{mantissa * 10^exp, scale 0}`; concretely `1e18` parses to
`{10^18, 18}` (`1E6` to `{10^6, 6}`) and `5e3` parses to `{5000, 0}`. -/
theorem parseNumberLiteral_scale_constant_rule :
    (∀ e : List Char, e ≠ [] → (∀ c ∈ e, isDigitCharB c = true) →
      parseNumberLiteralChars ('1' :: 'e' :: e)
        = .ok { value := (10 : Int) ^ digitsToNat e, decimals := (digitsToNat e : Int) })
    ∧ (∀ m e : List Char, m ≠ [] → e ≠ [] → m ≠ ['1'] →
        (∀ c ∈ m, isDigitCharB c = true) → (∀ c ∈ e, isDigitCharB c = true) →
      parseNumberLiteralChars (m ++ 'e' :: e)
        = .ok { value := (digitsToNat m : Int) * 10 ^ digitsToNat e, decimals := 0 })
    ∧ parseNumberLiteral "1e18" = .ok { value := 10 ^ (18 : Nat), decimals := 18 }
    ∧ parseNumberLiteral "1E6" = .ok { value := 10 ^ (6 : Nat), decimals := 6 }
    ∧ parseNumberLiteral "5e3" = .ok { value := 5000, decimals := 0 } := by
  refine ⟨?_, ?_, by rfl, by rfl, by rfl⟩
  · intro e hne hdig
    have hnm : 'e' ∉ e := fun hm => (digit_char_ne 'e' (hdig 'e' hm)).1 rfl
    have hlow : ('1' :: 'e' :: e).map asciiToLower = '1' :: 'e' :: e := by
      rw [List.map_cons, List.map_cons, map_asciiToLower_digits e hdig,
        show asciiToLower '1' = '1' from by decide, show asciiToLower 'e' = 'e' from by decide]
    have hsplit : splitOnChar 'e' ('1' :: 'e' :: e) = [['1'], e] := by
      have h1 := splitOnChar_append 'e' ['1'] e (by decide)
      rw [splitOnChar_of_not_mem 'e' e hnm] at h1
      exact h1
    unfold parseNumberLiteralChars
    rw [hlow]
    rw [if_pos (by simp), hsplit]
    exact parseSciLiteral_mantissa_one e hne hdig
  · intro m e hmne hene hm1 hmdig hedig
    have hnm : 'e' ∉ m := fun hm => (digit_char_ne 'e' (hmdig 'e' hm)).1 rfl
    have hnme : 'e' ∉ e := fun hm => (digit_char_ne 'e' (hedig 'e' hm)).1 rfl
    have hlow : (m ++ 'e' :: e).map asciiToLower = m ++ 'e' :: e := by
      rw [List.map_append, List.map_cons, map_asciiToLower_digits m hmdig,
        map_asciiToLower_digits e hedig, show asciiToLower 'e' = 'e' from by decide]
    have hsplit : splitOnChar 'e' (m ++ 'e' :: e) = [m, e] := by
      have h1 := splitOnChar_append 'e' m e hnm
      rw [splitOnChar_of_not_mem 'e' e hnme] at h1
      exact h1
    unfold parseNumberLiteralChars
    rw [hlow]
    rw [if_pos (by simp), hsplit]
    exact parseSciLiteral_mantissa_other m e hmne hene hm1 hmdig hedig

/-- Closed instance of the C2 theorem at the digit strings of `1e18` and
`5e3`. -/
theorem parseNumberLiteral_scale_constant_rule_witness :
    parseNumberLiteralChars ('1' :: 'e' :: ['1', '8'])
      = .ok { value := (10 : Int) ^ digitsToNat ['1', '8'],
              decimals := (digitsToNat ['1', '8'] : Int) }
    ∧ parseNumberLiteralChars (['5'] ++ 'e' :: ['3'])
      = .ok { value := (digitsToNat ['5'] : Int) * 10 ^ digitsToNat ['3'], decimals := 0 } :=
  ⟨parseNumberLiteral_scale_constant_rule.1 ['1', '8'] (by decide) (by decide),
   parseNumberLiteral_scale_constant_rule.2.1 ['5'] ['3'] (by decide) (by decide) (by decide)
     (by decide) (by decide)⟩

/-! ### Structure of the decimal rendering -/

/-- Each produced digit character is an ASCII digit. -/
theorem isDigitCharB_digitChar (n : Nat) : isDigitCharB (digitChar (n % 10)) = true := by
  have h : n % 10 < 10 := Nat.mod_lt _ (by omega)
  unfold digitChar
  set r := n % 10 with hr
  interval_cases r <;> decide

/-- All characters produced by `natDigitsAux` over a digit accumulator are
digits. -/
theorem natDigitsAux_digits (fuel : Nat) : ∀ (n : Nat) (acc : List Char),
    (∀ c ∈ acc, isDigitCharB c = true) →
    ∀ c ∈ natDigitsAux fuel n acc, isDigitCharB c = true := by
  induction fuel with
  | zero => intro n acc hacc; exact hacc
  | succ fuel ih =>
    intro n acc hacc
    have hacc' : ∀ c ∈ digitChar (n % 10) :: acc, isDigitCharB c = true := by
      intro c hc
      rcases List.mem_cons.mp hc with h | h
      · subst h; exact isDigitCharB_digitChar n
      · exact hacc c h
    show ∀ c ∈ (if n < 10 then digitChar (n % 10) :: acc
                else natDigitsAux fuel (n / 10) (digitChar (n % 10) :: acc)),
        isDigitCharB c = true
    by_cases hn : n < 10
    · rw [if_pos hn]; exact hacc'
    · rw [if_neg hn]; exact ih (n / 10) _ hacc'

/-- All characters of `natDigits` are digits. -/
theorem natDigits_digits (n : Nat) : ∀ c ∈ natDigits n, isDigitCharB c = true :=
  natDigitsAux_digits (n + 1) n [] (by simp)

/-- For a non-negative magnitude and positive scale, `formatChars` is an
all-digit integer part, a point, and exactly `k` fractional digits. -/
theorem formatChars_structure (v k : Int) (hv : 0 ≤ v) (hk : 0 < k) :
    ∃ ipc fpc : List Char, formatChars v k = ipc ++ '.' :: fpc
      ∧ fpc.length = k.toNat ∧ ipc ≠ []
      ∧ (∀ c ∈ ipc ++ fpc, isDigitCharB c = true) := by
  unfold formatChars
  rw [if_neg (by omega), if_neg (by omega)]
  have hneg : ¬ v < 0 := by omega
  rw [if_neg hneg]
  set d := k.toNat with hd
  set valueStr := natDigits v.natAbs with hvs
  set padded := List.replicate (d + 1 - valueStr.length) '0' ++ valueStr with hpadded
  have hpd : ∀ c ∈ padded, isDigitCharB c = true := by
    intro c hc
    rcases List.mem_append.mp hc with h | h
    · rw [List.eq_of_mem_replicate h]; decide
    · exact natDigits_digits v.natAbs c h
  have hplen : d + 1 ≤ padded.length := by
    rw [hpadded, List.length_append, List.length_replicate]
    omega
  have hipr : (padded.take (padded.length - d)).length = padded.length - d := by
    rw [List.length_take]
    omega
  have hiprne : padded.take (padded.length - d) ≠ [] := by
    intro h0
    rw [h0] at hipr
    simp at hipr
    omega
  rw [if_neg hiprne]
  refine ⟨padded.take (padded.length - d), padded.drop (padded.length - d), rfl, ?_, hiprne, ?_⟩
  · rw [List.length_drop]; omega
  · intro c hc
    rcases List.mem_append.mp hc with h | h
    · exact hpd c (List.take_subset _ _ h)
    · exact hpd c (List.drop_subset _ _ h)

/-- C9 counterexample: dividing the scale-0 variable `a = −7` by 2 in floor
mode surfaces the precision-loss string `"-0.5"` — a negative loss in floor
mode (the remainder `Int.tmod (−7) 2 = −1` is negative), contradicting the
claimed invariant that floor-mode loss is always ≥ 0. -/
theorem floor_loss_negative_counterexample :
    evaluate (.binaryOp .div (.identifier "a") (.numberLiteral 2 0))
      [("a", { value := -7, decimals := some 0 })] .floor
    = .ok { raw := -3, decimals := 0, human := "-3", solidity := -3,
            roundingLoss := "-0.5", warning := none } := by
  rfl

/-- C9 amended: for a positive remainder smaller than the divisor (the shape
produced by dividing non-negative magnitudes) and a non-negative result
scale, the loss string is the decimal rendering of `remainder/divisor`
truncated to `50 + resultDecimals ≥ 50` fractional digits in floor mode
(non-negative: all digit characters), and `"-"` prefixed to the rendering of
`(divisor − remainder)/divisor` in ceil mode (non-positive); the loss string
is `"0"` exactly when the division is exact (remainder 0). -/
theorem calculateDivisionLoss_rule (r d dec : Int) (hr : 0 < r) (hrd : r < d)
    (hdec : 0 ≤ dec) :
    calculateDivisionLoss r d dec .floor
      = formatWithDecimals (Int.tdiv (r * 10 ^ (50 : Nat)) d) (50 + dec)
    ∧ calculateDivisionLoss r d dec .ceil
      = ⟨'-' :: (formatWithDecimals (Int.tdiv ((d - r) * 10 ^ (50 : Nat)) d) (50 + dec)).data⟩
    ∧ (∀ m : RoundingMode, calculateDivisionLoss 0 d dec m = "0")
    ∧ (∃ ipc fpc : List Char,
        (calculateDivisionLoss r d dec .floor).data = ipc ++ '.' :: fpc
        ∧ fpc.length = (50 + dec).toNat ∧ (50 : Int) ≤ 50 + dec
        ∧ (∀ c ∈ ipc ++ fpc, isDigitCharB c = true))
    ∧ calculateDivisionLoss r d dec .floor ≠ "0" := by
  have hfloor : calculateDivisionLoss r d dec .floor
      = formatWithDecimals (Int.tdiv (r * 10 ^ (50 : Nat)) d) (50 + dec) := by
    unfold calculateDivisionLoss
    rw [if_neg (by omega)]
    dsimp only
    rw [if_neg (show ¬ r < 0 by omega), if_neg (show ¬ r < 0 by omega)]
  have hquot : (0 : Int) ≤ Int.tdiv (r * 10 ^ (50 : Nat)) d := by
    have h1 : (0 : Int) ≤ r * 10 ^ (50 : Nat) := by positivity
    have h2 : (0 : Int) ≤ d := by omega
    have := Int.tdiv_eq_ediv h1 h2
    rw [this]
    exact Int.ediv_nonneg h1 h2
  obtain ⟨ipc, fpc, hstruct, hlen, hipne, hdig⟩ :=
    formatChars_structure (Int.tdiv (r * 10 ^ (50 : Nat)) d) (50 + dec) hquot (by omega)
  refine ⟨hfloor, ?_, fun m => by unfold calculateDivisionLoss; rw [if_pos rfl], ?_, ?_⟩
  · unfold calculateDivisionLoss
    rw [if_neg (by omega)]
    dsimp only
    rw [if_pos (show -(d - r) < 0 by omega), if_pos (show -(d - r) < 0 by omega),
      neg_neg]
  · exact ⟨ipc, fpc, by rw [hfloor]; exact hstruct, hlen, by omega, hdig⟩
  · rw [hfloor]
    intro h0
    have hdata : formatChars (Int.tdiv (r * 10 ^ (50 : Nat)) d) (50 + dec)
        = ("0" : String).data := congrArg String.data h0
    rw [hstruct] at hdata
    have : (ipc ++ '.' :: fpc).length = (("0" : String).data).length :=
      congrArg List.length hdata
    rw [List.length_append, List.length_cons] at this
    have hip1 : 1 ≤ ipc.length := by
      cases ipc with
      | nil => exact absurd rfl hipne
      | cons a l => simp
    simp at this
    omega

/-- Closed instance of the C9 amended theorem at remainder 1, divisor 2,
result scale 0. -/
theorem calculateDivisionLoss_rule_witness :
    calculateDivisionLoss 1 2 0 .floor
      = formatWithDecimals (Int.tdiv (1 * 10 ^ (50 : Nat)) 2) (50 + 0)
    ∧ calculateDivisionLoss 1 2 0 .ceil
      = ⟨'-' :: (formatWithDecimals (Int.tdiv ((2 - 1) * 10 ^ (50 : Nat)) 2) (50 + 0)).data⟩
    ∧ (∀ m : RoundingMode, calculateDivisionLoss 0 2 0 m = "0")
    ∧ (∃ ipc fpc : List Char,
        (calculateDivisionLoss 1 2 0 .floor).data = ipc ++ '.' :: fpc
        ∧ fpc.length = ((50 : Int) + 0).toNat ∧ (50 : Int) ≤ 50 + 0
        ∧ (∀ c ∈ ipc ++ fpc, isDigitCharB c = true))
    ∧ calculateDivisionLoss 1 2 0 .floor ≠ "0" :=
  calculateDivisionLoss_rule 1 2 0 (by decide) (by decide) (by decide)

/-- C6 counterexample: the multiplier token `"100"` is a plain integer
literal — its text contains no `'e'`, so it is not a scale-constant literal —
yet `8.5 * 100` is accepted by the decimal-absorption rule (magnitude
`85 * 100 / 10 = 850`, scale 0), where the claim requires a `ParseError` for
any multiplier that is not a scale constant. -/
theorem decimal_absorbed_by_plain_integer_counterexample :
    ('e' ∉ ("100" : String).data
      ∧ parseNumberLiteral "100" = .ok { value := 100, decimals := 0 })
    ∧ parseDecimalLiteral "8.5"
        [{ type := .multiply, value := "*" }, { type := .number, value := "100" }, eofToken]
      = .ok ({ value := 850, decimals := 0 }, [eofToken]) :=
  ⟨⟨by decide, by rfl⟩, by rfl⟩

/-- C6 amended: a decimal-point literal `ip.fp` is accepted exactly when it
is immediately followed by `*` and ANY integer number literal whose parsed
magnitude is at least `10^|fp|` (not only scale constants), and the pair is
rewritten into the single literal
`{(digits with the point removed) * multiplier / 10^|fp|, multiplier's
scale}` with truncating division (exact whenever the multiplier is a power
of ten of at least that size); a decimal literal not so followed, or with an
insufficient multiplier, is a `ParseError`.  Concretely `8.5 * 1e18` becomes
the literal `{85 * 10^17, 18}`, whose evaluation equals that of the
variable-free literal node `{85 * 10^17, 18}`. -/
theorem parseDecimalLiteral_rule (ip fp : List Char)
    (hipd : ∀ c ∈ ip, isDigitCharB c = true) (hfpd : ∀ c ∈ fp, isDigitCharB c = true)
    (hfne : fp ≠ []) :
    (∀ (t1 t2 : Token) (rest : List Token) (nl : NumberLit),
      t1.type = .multiply → t2.type = .number →
      parseNumberLiteral t2.value = .ok nl → (10 : Int) ^ fp.length ≤ nl.value →
      parseDecimalLiteral ⟨ip ++ '.' :: fp⟩ (t1 :: t2 :: rest)
        = .ok ({ value := Int.tdiv ((digitsToNat (ip ++ fp) : Int) * nl.value)
                            (10 ^ fp.length),
                 decimals := nl.decimals }, rest))
    ∧ (∀ (t1 t2 : Token) (rest : List Token) (nl : NumberLit),
      t1.type = .multiply → t2.type = .number →
      parseNumberLiteral t2.value = .ok nl → nl.value < 10 ^ fp.length →
      parseDecimalLiteral ⟨ip ++ '.' :: fp⟩ (t1 :: t2 :: rest) = .error .insufficientScale)
    ∧ (∀ ts : List Token, (ts.headD eofToken).type ≠ .multiply →
      parseDecimalLiteral ⟨ip ++ '.' :: fp⟩ ts = .error .decimalNotAbsorbed)
    ∧ (∀ (t1 t2 : Token) (rest : List Token), t1.type = .multiply → t2.type ≠ .number →
      parseDecimalLiteral ⟨ip ++ '.' :: fp⟩ (t1 :: t2 :: rest)
        = .error .decimalMultiplierNotNumber)
    ∧ parseDecimalLiteral "8.5"
        [{ type := .multiply, value := "*" }, { type := .number, value := "1e18" }, eofToken]
      = .ok ({ value := 85 * 10 ^ (17 : Nat), decimals := 18 }, [eofToken])
    ∧ evaluate (.numberLiteral (85 * 10 ^ (17 : Nat)) 18) [] .floor
      = .ok { raw := 85 * 10 ^ (17 : Nat), decimals := 18, human := "8.500000000000000000",
              solidity := 85 * 10 ^ (17 : Nat), roundingLoss := "0", warning := none } := by
  have hdotip : '.' ∉ ip := fun hm => (digit_char_ne '.' (hipd '.' hm)).2.2.2 rfl
  have hdotfp : '.' ∉ fp := fun hm => (digit_char_ne '.' (hfpd '.' hm)).2.2.2 rfl
  have hsplit : splitOnChar '.' (ip ++ '.' :: fp) = [ip, fp] := by
    have h1 := splitOnChar_append '.' ip fp hdotip
    rw [splitOnChar_of_not_mem '.' fp hdotfp] at h1
    exact h1
  have hfpe : fp.isEmpty = false := by
    cases fp with
    | nil => exact absurd rfl hfne
    | cons a l => rfl
  have hnum : jsBigInt (ip ++ fp) = some (digitsToNat (ip ++ fp) : Int) := by
    apply jsBigInt_digits
    · cases fp with
      | nil => exact absurd rfl hfne
      | cons a l => simp
    · intro c hc
      rcases List.mem_append.mp hc with h | h
      · exact hipd c h
      · exact hfpd c h
  refine ⟨?_, ?_, ?_, ?_, by rfl, by rfl⟩
  · intro t1 t2 rest nl h1 h2 hnl hge
    unfold parseDecimalLiteral
    dsimp only [List.headD, List.drop]
    rw [if_neg (by rw [h1]; intro h; exact h rfl)]
    rw [if_neg (by rw [h2]; intro h; exact h rfl)]
    rw [hsplit]
    simp only [show List.drop 1 [ip, fp] = [fp] from rfl, List.headD]
    rw [hfpe]
    simp only [Bool.false_eq_true, if_false]
    rw [hnum]
    dsimp only
    rw [hnl]
    dsimp only
    rw [if_neg (by omega)]
  · intro t1 t2 rest nl h1 h2 hnl hlt
    unfold parseDecimalLiteral
    dsimp only [List.headD, List.drop]
    rw [if_neg (by rw [h1]; intro h; exact h rfl)]
    rw [if_neg (by rw [h2]; intro h; exact h rfl)]
    rw [hsplit]
    simp only [show List.drop 1 [ip, fp] = [fp] from rfl, List.headD]
    rw [hfpe]
    simp only [Bool.false_eq_true, if_false]
    rw [hnum]
    dsimp only
    rw [hnl]
    dsimp only
    rw [if_pos hlt]
  · intro ts hcur
    unfold parseDecimalLiteral
    rw [if_pos hcur]
  · intro t1 t2 rest h1 h2
    unfold parseDecimalLiteral
    dsimp only [List.headD, List.drop]
    rw [if_neg (by rw [h1]; intro h; exact h rfl)]
    rw [if_pos h2]

/-- Closed instance of the C6 amended theorem at `8.5 * 1e18` and at the
unabsorbed `8.5`. -/
theorem parseDecimalLiteral_rule_witness :
    (({ type := TokenType.multiply, value := "*" } : Token).type = .multiply →
      ({ type := TokenType.number, value := "1e18" } : Token).type = .number →
      parseNumberLiteral "1e18"
        = .ok { value := 10 ^ (18 : Nat), decimals := 18 } →
      (10 : Int) ^ (['5'] : List Char).length ≤ 10 ^ (18 : Nat) →
      parseDecimalLiteral ⟨['8'] ++ '.' :: ['5']⟩
          [{ type := .multiply, value := "*" }, { type := .number, value := "1e18" }, eofToken]
        = .ok ({ value := Int.tdiv ((digitsToNat (['8'] ++ ['5']) : Int) * 10 ^ (18 : Nat))
                            (10 ^ (['5'] : List Char).length),
                 decimals := 18 }, [eofToken]))
    ∧ ((([] : List Token).headD eofToken).type ≠ TokenType.multiply →
      parseDecimalLiteral ⟨['8'] ++ '.' :: ['5']⟩ [] = .error .decimalNotAbsorbed) := by
  have h := parseDecimalLiteral_rule ['8'] ['5'] (by decide) (by decide) (by decide)
  exact ⟨fun _ _ hnl hge =>
    h.1 { type := .multiply, value := "*" } { type := .number, value := "1e18" }
      [eofToken] { value := 10 ^ (18 : Nat), decimals := 18 } rfl rfl hnl hge,
    fun hne => h.2.2.1 [] hne⟩

end SolCalc
